import Mathlib

/-!
Verification development for the Lumo-Agent repository (an autonomous Linux
operations assistant).  The Python sources under `src/` are shallowly embedded
here: strings become `List Char`, the mutable `AgentContext` becomes a record
that is threaded explicitly, calls to the external LLM and to the PTY shell
become oracle parameters, and Python exceptions become `Except`/sum types.
Character-level operations model Python semantics over the ASCII range (all
commands, markers and patterns the claims quantify over are ASCII except for
fixed Chinese message literals, which both Python and this model leave
untouched by `lower`/`upper`).
-/

set_option maxRecDepth 10000

namespace Lumo

/-! ## Basic character and string utilities (Python string semantics) -/

/-- Python whitespace characters stripped by `str.strip()` / matched by `\s`
(ASCII range). -/
def isPyWS (c : Char) : Bool :=
  c = ' ' || c = '\t' || c = '\n' || c = '\x0d' || c = '\x0b' || c = '\x0c'

/-- ASCII lower-casing, modelling Python `str.lower()` on the ASCII range. -/
def lowChar (c : Char) : Char :=
  if 'A' ≤ c ∧ c ≤ 'Z' then Char.ofNat (c.toNat + 32) else c

/-- ASCII upper-casing, modelling Python `str.upper()` on the ASCII range. -/
def upChar (c : Char) : Char :=
  if 'a' ≤ c ∧ c ≤ 'z' then Char.ofNat (c.toNat - 32) else c

def lowerStr (s : List Char) : List Char := s.map lowChar

def upperStr (s : List Char) : List Char := s.map upChar

/-- The apostrophe and backtick characters, built numerically. -/
def sqChar : Char := Char.ofNat 39

def bqChar : Char := Char.ofNat 96

/-- Does `pat` occur as a prefix of `s`? -/
def listStartsWith (pat s : List Char) : Bool :=
  match pat, s with
  | [], _ => true
  | _ :: _, [] => false
  | p :: ps, c :: cs => p = c && listStartsWith ps cs

/-- Python `pat in s` substring test. -/
def strContains (s pat : List Char) : Bool :=
  if listStartsWith pat s then true
  else
    match s with
    | [] => false
    | _ :: t => strContains t pat

/-- Index of the first occurrence of `pat` in `s`, if any. -/
def findSub (s pat : List Char) : Option Nat :=
  if listStartsWith pat s then some 0
  else
    match s with
    | [] => none
    | _ :: t => (findSub t pat).map (· + 1)

/-- Python `s.split(sep, 1)`: split at the first occurrence of `sep`.
Returns `none` when `sep` does not occur. -/
def splitOnceSub (sep s : List Char) : Option (List Char × List Char) :=
  match findSub s sep with
  | some i => some (s.take i, s.drop (i + sep.length))
  | none => none

/-- Python `str.strip()` (leading side). -/
def dropLeftWhile (p : Char → Bool) (s : List Char) : List Char := s.dropWhile p

def dropRightWhile (p : Char → Bool) (s : List Char) : List Char :=
  ((s.reverse).dropWhile p).reverse

/-- Python `str.strip()`. -/
def pyStrip (s : List Char) : List Char :=
  dropRightWhile isPyWS (dropLeftWhile isPyWS s)

/-- Python `str.lstrip(chars)`. -/
def pyLstripSet (set : List Char) (s : List Char) : List Char :=
  s.dropWhile (fun c => set.contains c)

/-- Python `str.strip(chars)`. -/
def pyStripSet (set : List Char) (s : List Char) : List Char :=
  dropRightWhile (fun c => set.contains c)
    (dropLeftWhile (fun c => set.contains c) s)

/-- Python `str.splitlines()` restricted to the `\r\n`, `\r`, `\n`
terminators (the ones PTY output produces).  A trailing terminator does not
produce a final empty line. -/
def splitLinesPy : List Char → List Char → List (List Char)
  | cur, [] => if cur.isEmpty then [] else [cur.reverse]
  | cur, '\x0d' :: '\n' :: rest => cur.reverse :: splitLinesPy [] rest
  | cur, '\x0d' :: rest => cur.reverse :: splitLinesPy [] rest
  | cur, '\n' :: rest => cur.reverse :: splitLinesPy [] rest
  | cur, c :: rest => splitLinesPy (c :: cur) rest

/-- `splitlines` entry point.  The empty string yields no lines. -/
def pySplitlines (s : List Char) : List (List Char) :=
  match s with
  | [] => []
  | _ => splitLinesPy [] s

/-- Split on `'\n'` only (the segments inside which a regex `.` can match,
since Python `.` matches everything except `'\n'`). -/
def splitNL : List Char → List Char → List (List Char)
  | cur, [] => [cur.reverse]
  | cur, '\n' :: rest => cur.reverse :: splitNL [] rest
  | cur, c :: rest => splitNL (c :: cur) rest

def dotSegments (s : List Char) : List (List Char) := splitNL [] s

/-- Python `"\n".join` over char lists. -/
def joinNL : List (List Char) → List Char
  | [] => []
  | [l] => l
  | l :: ls => l ++ '\n' :: joinNL ls

/-- Python `str.replace(c, "")` for a single character. -/
def removeChar (c : Char) (s : List Char) : List Char := s.filter (· ≠ c)

/-- Python `command.lower().replace(" ", "")`: note that only the ASCII
space character is removed, not tabs. -/
def despace (s : List Char) : List Char := s.filter (· ≠ ' ')

theorem listStartsWith_length {pat s : List Char} (h : listStartsWith pat s = true) :
    pat.length ≤ s.length := by
  induction pat generalizing s with
  | nil => simp
  | cons p ps ih =>
    cases s with
    | nil => simp [listStartsWith] at h
    | cons c cs =>
      simp only [listStartsWith, Bool.and_eq_true] at h
      simpa using ih h.2

/-- Scanner for Python `str.replace(pat, "")`: a positive `skip` means the
scanner is inside a matched occurrence and drops the character; at `skip =
0` it tests for a match (dropping `pat.length` characters) or emits the
character.  Matches are found left to right and emitted output is never
rescanned, exactly as CPython's `replace` behaves. -/
def removeAllAux (pat : List Char) : Nat → List Char → List Char
  | _, [] => []
  | skip + 1, _ :: t => removeAllAux pat skip t
  | 0, c :: t =>
    if listStartsWith pat (c :: t) then removeAllAux pat (pat.length - 1) t
    else c :: removeAllAux pat 0 t

/-- Python `str.replace(pat, "")` (Python rejects an empty `pat`-free
call differently: `replace("", "")` is the identity here as there). -/
def removeAllSub (pat s : List Char) : List Char :=
  if pat.isEmpty then s else removeAllAux pat 0 s

theorem dropWhile_length_le (p : Char → Bool) (l : List Char) :
    (l.dropWhile p).length ≤ l.length := by
  induction l with
  | nil => simp
  | cons c t ih =>
    by_cases h : p c
    · simp only [List.dropWhile, h]
      simpa using Nat.le_succ_of_le ih
    · simp [List.dropWhile, h]

theorem findSub_le {s pat : List Char} {i : Nat} (h : findSub s pat = some i) :
    pat.length + i ≤ s.length := by
  induction s generalizing i with
  | nil =>
    unfold findSub at h
    by_cases hp : listStartsWith pat [] = true
    · simp only [hp, if_pos] at h
      cases h
      simpa using listStartsWith_length hp
    · simp [hp] at h
  | cons c t ih =>
    unfold findSub at h
    by_cases hp : listStartsWith pat (c :: t) = true
    · simp only [hp, if_pos] at h
      cases h
      simpa using listStartsWith_length hp
    · simp only [hp, if_neg, Bool.false_eq_true] at h
      cases hf : findSub t pat with
      | none => rw [hf] at h; simp at h
      | some j =>
        rw [hf] at h
        have hj : j + 1 = i := by simpa using h
        have := ih hf
        simp only [List.length_cons]
        omega

/-- Scanner for Python `str.split(sep)`: `cur` accumulates the current
segment reversed; a positive `skip` drops the rest of a matched
separator. -/
def splitAllAux (sep : List Char) : Nat → List Char → List Char → List (List Char)
  | _, cur, [] => [cur.reverse]
  | skip + 1, cur, _ :: t => splitAllAux sep skip cur t
  | 0, cur, c :: t =>
    if listStartsWith sep (c :: t) then
      cur.reverse :: splitAllAux sep (sep.length - 1) [] t
    else splitAllAux sep 0 (c :: cur) t

/-- Python `str.split(sep)` for a non-empty separator (the degenerate empty
separator, which Python rejects, returns the string whole). -/
def splitAllSub (sep s : List Char) : List (List Char) :=
  if sep.isEmpty then [s] else splitAllAux sep 0 [] s

/-! ## `src/agents/prompts.py`: error-pattern tables and detection -/

/-- `FATAL_ERROR_PATTERNS` (prompts.py). -/
def FATAL_ERROR_PATTERNS : List (List Char) :=
  [ "command not found".data,
    "未找到命令".data,
    "No such file or directory".data,
    "没有那个文件或目录".data,
    "Permission denied".data,
    "权限不够".data,
    "拒绝访问".data,
    "Operation not permitted".data,
    "unable to locate package".data,
    "No package .* available".data,
    "E: Unable to".data,
    "E: Package".data,
    "fatal:".data,
    "Fatal:".data,
    "FATAL:".data,
    "Cannot allocate memory".data,
    "No space left on device".data,
    "Read-only file system".data,
    "Unit .* not found".data,
    "Failed to start".data,
    "Failed to enable".data,
    "Job for .* failed".data ]

/-- `SUCCESS_PATTERNS` (prompts.py). -/
def SUCCESS_PATTERNS : List (List Char) :=
  [ "Complete!".data,
    "完成".data,
    "Successfully".data,
    "成功".data,
    "is already installed".data,
    "已安装".data,
    "already the newest version".data,
    "已经是最新版".data,
    "nothing to do".data,
    "无需处理".data,
    "Nothing to do".data,
    "is newest version".data,
    "Active: active (running)".data,
    "active (running)".data,
    "active (exited)".data,
    "enabled".data,
    "Created symlink".data,
    "Loaded: loaded".data,
    "Dependencies resolved".data,
    "Running transaction".data,
    "Installed:".data,
    "Upgraded:".data ]

/-- Sequential substring search: each segment occurs after the previous one.
Taking the first occurrence of each segment is complete because any later
occurrence only leaves a suffix of the remaining search space. -/
def seqContains (l : List Char) : List (List Char) → Bool
  | [] => true
  | seg :: rest =>
    match findSub l seg with
    | some k => seqContains (l.drop (k + seg.length)) rest
    | none => false

/-- `re.search(pat, out)` for the pattern shapes occurring in
`FATAL_ERROR_PATTERNS`: the only regex metacharacters in that fixed table are
the `.* ` gaps, and a regex `.` matches any character except `'\n'`, so a
match of a gapped pattern lies entirely inside one `'\n'`-free segment.
(Every pattern in the table compiles, so the `re.error` literal-substring
fallback in `check_fatal_error` is unreachable.) -/
def fatalMatchOne (pat out : List Char) : Bool :=
  match splitAllSub ".*".data pat with
  | [p] => strContains out p
  | segs => (dotSegments out).any (fun l => seqContains l segs)

/-- `check_fatal_error` (prompts.py): success tokens are checked first as
case-insensitive substrings; otherwise the lowered fatal patterns are matched
as regexes against the lowered output. -/
def check_fatal_error (output : List Char) : Bool :=
  let output_lower := lowerStr output
  if SUCCESS_PATTERNS.any (fun p => strContains output_lower (lowerStr p)) then
    false
  else
    FATAL_ERROR_PATTERNS.any (fun p => fatalMatchOne (lowerStr p) output_lower)

/-- Keyword list used by `extract_error_message`. -/
def ERROR_KEYWORDS : List (List Char) :=
  [ "error".data, "failed".data, "denied".data,
    "not found".data, "unable".data, "cannot".data ]

/-- `extract_error_message` (prompts.py): first line containing an error
keyword truncated to 200 characters, else the last three lines truncated
to 300. -/
def extract_error_message (output : List Char) : List Char :=
  let lines := pySplitlines (pyStrip output)
  match lines.find? (fun line =>
      ERROR_KEYWORDS.any (fun kw => strContains (lowerStr line) kw)) with
  | some line => (pyStrip line).take 200
  | none => (joinNL (lines.drop (lines.length - 3))).take 300

/-! ## `src/agents/base.py`: second-layer output cleaning and data model -/

/-- Consume `[0-9;]*[a-zA-Z]` after `ESC [` (first alternative of
`ANSI_ESCAPE_RE`). -/
def scanCsiBase : List Char → Option (List Char)
  | [] => none
  | c :: t =>
    if c.isDigit || c = ';' then scanCsiBase t
    else if ('a' ≤ c ∧ c ≤ 'z') ∨ ('A' ≤ c ∧ c ≤ 'Z') then some t
    else none

/-- Consume `[^\x07]*\x07` after `ESC ]` (second alternative). -/
def scanOscBase (s : List Char) : Option (List Char) :=
  match s.dropWhile (· ≠ '\x07') with
  | '\x07' :: t => some t
  | _ => none

/-- `ANSI_ESCAPE_RE.sub('', text)` (base.py): the regex is the alternation
of `ESC [`-CSI, `ESC ]`-OSC-through-BEL, and a bare `]0;`-title fragment,
applied by scanning left to right and skipping each leftmost match.  The
fuel argument tracks the list length exactly (every branch recurses on a
list no longer than the fuel), making the scanner structurally
recursive. -/
def ansiBaseGo : Nat → List Char → List Char
  | 0, s => s
  | _ + 1, [] => []
  | fuel + 1, c₀ :: t₀ =>
    if c₀ = '\x1b' then
      match t₀ with
      | c :: t =>
        if c = '[' then
          match scanCsiBase t with
          | some t₂ => ansiBaseGo fuel t₂
          | none => c₀ :: ansiBaseGo fuel t₀
        else if c = ']' then
          match scanOscBase t with
          | some t₂ => ansiBaseGo fuel t₂
          | none => c₀ :: ansiBaseGo fuel t₀
        else c₀ :: ansiBaseGo fuel t₀
      | [] => [c₀]
    else if c₀ = ']' then
      match t₀ with
      | '0' :: ';' :: rest =>
        ansiBaseGo fuel (rest.dropWhile (fun c => ¬(c = '\x07' ∨ c = '\n')))
      | _ => c₀ :: ansiBaseGo fuel t₀
    else c₀ :: ansiBaseGo fuel t₀

def ansiBaseStrip (s : List Char) : List Char := ansiBaseGo s.length s

/-- `clean_output` (base.py): strip `ANSI_ESCAPE_RE` matches, then remove
every remaining `ESC` and `BEL` byte unconditionally, then strip
whitespace. -/
def clean_output (text : List Char) : List Char :=
  pyStrip (removeChar '\x07' (removeChar '\x1b' (ansiBaseStrip text)))

/-- Step status (base.py `Step.status`). -/
inductive StepStatus
  | pending | running | done | failed
  deriving DecidableEq, Repr

/-- `Step` (base.py).  Python's `command` is `Optional[str]`; `None` and
`""` are used interchangeably through truthiness, so both are the empty
list here. -/
structure Step where
  title : List Char
  command : List Char
  status : StepStatus := .pending
  output : List Char := []
  error : List Char := []
  deriving DecidableEq, Repr

inductive Role
  | user | assistant | system
  deriving DecidableEq, Repr

structure MemEntry where
  role : Role
  content : List Char
  deriving DecidableEq, Repr

/-- `AgentContext` (base.py) with its field defaults (`max_retries = 2`,
`max_replans = 3`); the orchestrator overrides `max_retries` to 3 when it
creates the turn's context.  The injected `llm`, `shell` and `emit`
capabilities are modelled as oracles and an event trace rather than
fields. -/
structure AgentContext where
  goal : List Char
  memory : List MemEntry := []
  steps : List Step := []
  outputs : List (List Char) := []
  current_step_idx : Nat := 0
  retry_count : Nat := 0
  max_retries : Nat := 2
  replan_count : Nat := 0
  max_replans : Nat := 3
  last_failure_reason : List Char := []
  deriving DecidableEq, Repr

/-- Event kinds the agents emit to the client (`tasks`, `terminal`, `log`,
`reply`, `summary`, `error`).  Payloads are irrelevant to every claim and
are abstracted away. -/
inductive EvKind
  | tasks | terminal | log | reply | summaryE | errorE
  deriving DecidableEq, Repr

/-! ## `src/shell/manager.py`: PTY session -/

/-- The fixed end-of-command marker. -/
def END_MARKER : List Char := "<<::CMD_DONE_7f3e9a::>>".data

/-- The `Fe`-escape byte class `[@-Z\\-_]` of the session's ANSI regex. -/
def isFeFinal (c : Char) : Bool :=
  ('@' ≤ c && c ≤ 'Z') || ('\\' ≤ c && c ≤ '_')

/-- CSI parameter bytes, 0x30 to 0x3F. -/
def csiParamB (c : Char) : Bool := 0x30 ≤ c.toNat && c.toNat ≤ 0x3f

/-- CSI intermediate bytes, 0x20 to 0x2F. -/
def csiInterB (c : Char) : Bool := 0x20 ≤ c.toNat && c.toNat ≤ 0x2f

/-- CSI final bytes, 0x40 to 0x7E. -/
def csiFinalB (c : Char) : Bool := 0x40 ≤ c.toNat && c.toNat ≤ 0x7e

/-- Consume the CSI body after `ESC [` (parameter bytes, then intermediate
bytes, then one final byte).  The three byte classes are pairwise disjoint,
so greedy scanning is exact. -/
def scanCsiShell (s : List Char) : Option (List Char) :=
  match (s.dropWhile csiParamB).dropWhile csiInterB with
  | c :: t => if csiFinalB c then some t else none
  | [] => none

theorem scanCsiShell_le {s t : List Char} (h : scanCsiShell s = some t) :
    t.length ≤ s.length := by
  have key : ((s.dropWhile csiParamB).dropWhile csiInterB).length ≤ s.length :=
    le_trans (dropWhile_length_le _ _) (dropWhile_length_le _ _)
  unfold scanCsiShell at h
  cases hcase : (s.dropWhile csiParamB).dropWhile csiInterB with
  | nil => rw [hcase] at h; simp at h
  | cons c t₂ =>
    rw [hcase] at h
    rw [hcase] at key
    by_cases hf : csiFinalB c = true
    · simp only [hf, if_pos] at h
      cases h
      simp only [List.length_cons] at key
      omega
    · simp [hf] at h

/-- The `sub` of `self._ansi_escape` (manager.py): `ESC` followed by either
one `Fe` byte (`isFeFinal`) or by `[` and a CSI body, scanned left to
right; unmatched text (including a bare `ESC`) is kept.  The fuel argument
tracks the list length exactly. -/
def ansiShellGo : Nat → List Char → List Char
  | 0, s => s
  | _ + 1, [] => []
  | fuel + 1, c₀ :: t₀ =>
    if c₀ = '\x1b' then
      match t₀ with
      | c :: t =>
        if isFeFinal c then ansiShellGo fuel t
        else if c = '[' then
          match scanCsiShell t with
          | some t₂ => ansiShellGo fuel t₂
          | none => c₀ :: ansiShellGo fuel t₀
        else c₀ :: ansiShellGo fuel t₀
      | [] => [c₀]
    else c₀ :: ansiShellGo fuel t₀

def ansiShellStrip (s : List Char) : List Char := ansiShellGo s.length s

/-- The `echo '<<::CMD_DONE_7f3e9a::>>'` literal checked by the echo-line
guard (single-quoted form). -/
def echoMarkerSq : List Char := "echo ".data ++ [sqChar] ++ END_MARKER ++ [sqChar]

/-- The double-quoted form `echo "<<::CMD_DONE_7f3e9a::>>"`. -/
def echoMarkerDq : List Char := "echo \"".data ++ END_MARKER ++ ['\"']

/-- The line filter of `_clean_output`: drop line 0 when it contains the
command (PTY echo guard) and drop any line containing the quoted
`echo MARKER` text. -/
def keepCleanLines (command : List Char) : Nat → List (List Char) → List (List Char)
  | _, [] => []
  | i, line :: rest =>
    if i = 0 && strContains line command then
      keepCleanLines command (i + 1) rest
    else if strContains line echoMarkerSq || strContains line echoMarkerDq then
      keepCleanLines command (i + 1) rest
    else
      line :: keepCleanLines command (i + 1) rest

/-- `ShellManager._clean_output(text, command)`: strip ANSI sequences,
delete every `END_MARKER` occurrence, drop echo lines, re-join and strip. -/
def shell_clean_output (text command : List Char) : List Char :=
  let text₁ := ansiShellStrip text
  let text₂ := removeAllSub END_MARKER text₁
  let lines := pySplitlines text₂
  pyStrip (joinNL (keepCleanLines command 0 lines))

/-- State of a `ShellManager`: whether a child exists and is alive, the
command history, and the `_started` flag. -/
structure ShellState where
  childAlive : Option Bool
  history : List (List Char)
  started : Bool
  deriving DecidableEq, Repr

/-- Observable side effects of `run_command` on the session: acquiring the
mutex and writing a line to the PTY. -/
inductive WriteEv
  | lockAcq
  | sendline (s : List Char)
  deriving DecidableEq, Repr

/-- One outcome of a `pexpect.expect` call inside the read loop, supplied by
the environment (the PTY is an external process). -/
inductive ExpectEv
  | handlerHit (i : Nat) (before : List Char)
  | markerHit (before : List Char)
  | timeoutHit
  | eofHit (before : List Char)
  deriving DecidableEq, Repr

/-- One loop iteration's environment data: the boolean outcome of the
wall-clock deadline test `elapsed >= eff_timeout`, plus the expect event. -/
structure LoopEv where
  elapsedGE : Bool
  ev : ExpectEv
  deriving DecidableEq, Repr

inductive RunErr
  | shellNotStarted
  | cmdTimeout
  deriving DecidableEq, Repr

inductive LoopOut
  | timedOutE
  | undetermined
  | finished (chunks : List (List Char))
  deriving DecidableEq, Repr

/-- The read loop of `run_command`.  `undetermined` means the supplied
event schedule ran out (the Python loop would keep polling). -/
def runCmdLoop (handlers : List (List Char × List Char)) :
    List LoopEv → List (List Char) → List WriteEv → List WriteEv × LoopOut
  | [], _, writes => (writes, .undetermined)
  | e :: rest, chunks, writes =>
    if e.elapsedGE then (writes, .timedOutE)
    else
      match e.ev with
      | .timeoutHit => runCmdLoop handlers rest chunks writes
      | .eofHit before => (writes, .finished (chunks ++ [before]))
      | .markerHit before => (writes, .finished (chunks ++ [before]))
      | .handlerHit i before =>
        match handlers[i]? with
        | some h =>
          runCmdLoop handlers rest (chunks ++ [before])
            (writes ++ [.lockAcq, .sendline h.2])
        | none => (writes, .undetermined)

/-- `run_command` (manager.py).  Returns the new state, the PTY write/lock
trace, and the result (`none` when the supplied event schedule does not
settle the command).  The guard `if not self.child or not
self.child.isalive(): raise RuntimeError(...)` comes before the lock and
before any write. -/
def run_command (st : ShellState) (command : List Char)
    (handlers : List (List Char × List Char)) (events : List LoopEv) :
    ShellState × List WriteEv × Option (Except RunErr (List Char)) :=
  let alive := match st.childAlive with
    | some b => b
    | none => false
  if alive then
    let full_command := command ++ "; ".data ++ "echo ".data ++ [sqChar] ++
      END_MARKER ++ [sqChar]
    let writes₀ : List WriteEv := [.lockAcq, .sendline full_command]
    match runCmdLoop handlers events [] writes₀ with
    | (writes, .timedOutE) => (st, writes, some (.error .cmdTimeout))
    | (writes, .undetermined) => (st, writes, none)
    | (writes, .finished chunks) =>
      let cleaned := shell_clean_output chunks.flatten command
      let st' := { st with history :=
        if cleaned.isEmpty then st.history else st.history ++ [cleaned] }
      (st', writes, some (.ok cleaned))
  else (st, [], some (.error .shellNotStarted))

/-! ## `src/agents/executor.py`: safety gate -/

/-- `[rf]` character class. -/
def isRF (c : Char) : Bool := c = 'r' || c = 'f'

/-- Consume `\s+` (one or more whitespace characters). -/
def ws1 (s : List Char) : Option (List Char) :=
  match s with
  | c :: t => if isPyWS c then some (t.dropWhile isPyWS) else none
  | [] => none

/-- Consume one flag group `-[rf]+\s+`. -/
def flagGroup (s : List Char) : Option (List Char) :=
  match s with
  | c₀ :: c₁ :: t =>
    if c₀ = '-' ∧ isRF c₁ then ws1 (t.dropWhile isRF) else none
  | _ => none

theorem ws1_lt {s t : List Char} (h : ws1 s = some t) : t.length < s.length := by
  unfold ws1 at h
  cases s with
  | nil => cases h
  | cons c cs =>
    by_cases hw : isPyWS c = true
    · simp only [hw, if_pos] at h
      cases h
      have := dropWhile_length_le isPyWS cs
      simp only [List.length_cons]
      omega
    · simp [hw] at h

theorem flagGroup_lt {s t : List Char} (h : flagGroup s = some t) :
    t.length < s.length := by
  unfold flagGroup at h
  cases s with
  | nil => cases h
  | cons c₀ s₀ =>
    cases s₀ with
    | nil => cases h
    | cons c₁ t₀ =>
      by_cases hc : c₀ = '-' ∧ isRF c₁ = true
      · simp only [hc, if_pos] at h
        have hw := ws1_lt h
        have := dropWhile_length_le isRF t₀
        simp only [List.length_cons]
        omega
      · simp [hc] at h

/-- Consume `(-[rf]+\s+)+`.  After a group, a following `-` must start
another group (the terminal `/` of the enclosing patterns can never match
`-`, so regex backtracking to fewer groups cannot succeed).  Each group
consumes at least one character, so fuel equal to the input length is
sufficient (`flagGroup [] = none` makes the exhausted-fuel arm agree). -/
def flagGroupsGo : Nat → List Char → Option (List Char)
  | 0, _ => none
  | fuel + 1, s =>
    match flagGroup s with
    | none => none
    | some ('-' :: rr) => flagGroupsGo fuel ('-' :: rr)
    | some r => some r

def flagGroups (s : List Char) : Option (List Char) := flagGroupsGo s.length s

/-- The tail alternative `(\s|$|&&|\|)` of the critical-path patterns
(`$` matches at the end of the string or just before a final newline; a
final newline is itself `\s`). -/
def altTail (r : List Char) : Bool :=
  match r with
  | [] => true
  | c :: _ => isPyWS c || c = '|' || listStartsWith "&&".data r

/-- Anchored match of `rm\s+(-[rf]+\s+)+/\s*$`. -/
def rmRootEndAt (s : List Char) : Bool :=
  match s with
  | 'r' :: 'm' :: rest =>
    match ws1 rest with
    | some r₁ =>
      match flagGroups r₁ with
      | some ('/' :: r₂) => r₂.all isPyWS
      | _ => false
    | none => false
  | _ => false

/-- Anchored match of `rm\s+(-[rf]+\s+)+/\s*&&`. -/
def rmRootAndAt (s : List Char) : Bool :=
  match s with
  | 'r' :: 'm' :: rest =>
    match ws1 rest with
    | some r₁ =>
      match flagGroups r₁ with
      | some ('/' :: r₂) => listStartsWith "&&".data (r₂.dropWhile isPyWS)
      | _ => false
    | none => false
  | _ => false

/-- Anchored match of `rm\s+(-[rf]+\s+)+{path}/?(\s|$|&&|\|)` for a literal
`path`.  If the optional `/` is present but the tail fails, backtracking
drops the `/`, whose character then cannot satisfy the tail either, so
taking the `/` greedily is exact. -/
def rmPathAt (path : List Char) (s : List Char) : Bool :=
  match s with
  | 'r' :: 'm' :: rest =>
    match ws1 rest with
    | some r₁ =>
      match flagGroups r₁ with
      | some r₂ =>
        if listStartsWith path r₂ then
          match r₂.drop path.length with
          | '/' :: r₄ => altTail r₄
          | r₃ => altTail r₃
        else false
      | none => false
    | none => false
  | _ => false

/-- `re.search`: does the anchored matcher fire at some position? -/
def reSearch (p : List Char → Bool) (s : List Char) : Bool :=
  p s ||
    match s with
    | [] => false
    | _ :: t => reSearch p t

/-- `critical_paths` (executor.py `_is_catastrophic`). -/
def critical_paths : List (List Char) :=
  [ "/bin".data, "/sbin".data, "/usr".data, "/lib".data,
    "/lib64".data, "/boot".data, "/etc".data ]

/-- `ExecutorAgent._is_catastrophic(command)`.  `cmd_lower` is
`command.lower().replace(" ", "")` (only the ASCII space is removed); the
regex searches run on the original `command`. -/
def is_catastrophic (command : List Char) : Bool :=
  let cmd_lower := despace (lowerStr command)
  (strContains cmd_lower "rm".data &&
    (strContains cmd_lower "-rf".data || strContains cmd_lower "-fr".data ||
      strContains cmd_lower "-r".data) &&
    (strContains cmd_lower "rm-rf/".data || strContains cmd_lower "rm-fr/".data) &&
    (reSearch rmRootEndAt command || reSearch rmRootAndAt command)) ||
  (strContains cmd_lower "mkfs".data && strContains command "/dev/".data) ||
  (strContains cmd_lower "dd".data && strContains command "of=/dev/".data) ||
  (strContains cmd_lower ">/dev/sd".data || strContains cmd_lower ">/dev/nvme".data) ||
  (strContains command ":()\x7b".data || strContains command ":()".data) ||
  (strContains cmd_lower "rm".data &&
    (strContains cmd_lower "-rf".data || strContains cmd_lower "-fr".data) &&
    critical_paths.any (fun p => reSearch (rmPathAt p) command))

/-! ## `src/agents/executor.py`: step execution and goal evaluation -/

/-- Agent names, exactly the keys of the orchestrator's dispatch table. -/
inductive AgentName
  | RouterAgent | ChatAgent | PlannerAgent | ExecutorAgent | RepairAgent | SummaryAgent
  deriving DecidableEq, Repr

/-- Outcome of one `ctx.shell.run_command` call as observed by
`_execute_step`: sanitized later by `clean_output`, or a `TimeoutError`,
or any other exception.  The PTY is an external process, so the outcome is
supplied by the environment. -/
inductive ShellOutcome
  | ok (raw : List Char)
  | timeoutE (msg : List Char)
  | exn (msg : List Char)
  deriving DecidableEq, Repr

/-- Environment data consumed by one `ExecutorAgent.run` invocation: the
shell outcome for the step at each index, and the goal-evaluation LLM
response (`Except.error` models a raised exception). -/
structure ExecOracle where
  shell : Nat → ShellOutcome
  evalResp : Except Unit (List Char)

def missingCmdError : List Char := "缺少可执行命令".data

def safetyGateError : List Char := "系统安全保护：此命令可能导致系统不可恢复，已被阻止".data

def timeoutErrorMsg (msg : List Char) : List Char := "命令超时: ".data ++ msg

def doneCountOf (steps : List Step) : Nat :=
  (steps.filter (fun s => s.status = .done)).length

def failedCountOf (steps : List Step) : Nat :=
  (steps.filter (fun s => s.status = .failed)).length

/-- `_evaluate_goal_completion` (executor.py), decision part.  The prompt
text is irrelevant; the LLM reply (or its exception) is the oracle.  The
float test `done_count >= len(ctx.steps) * 0.7` is modelled as
`10 * done ≥ 7 * total`; at the only places the two can differ
(`total` a multiple of 10) the float product rounds half-to-even to the
exact integer, so they agree. -/
def evaluate_goal_completion (steps : List Step)
    (resp : Except Unit (List Char)) : List Char :=
  let done_count := doneCountOf steps
  let failed_count := failedCountOf steps
  match resp with
  | .ok r =>
    let result := upperStr (pyStrip r)
    if listStartsWith "COMPLETED".data result then "COMPLETED".data
    else if listStartsWith "INCOMPLETE".data result then result
    else if listStartsWith "BLOCKED".data result then result
    else if 10 * done_count ≥ 7 * steps.length then "COMPLETED".data
    else "INCOMPLETE:部分步骤失败".data
  | .error _ =>
    if failed_count = 0 then "COMPLETED".data
    else if done_count > failed_count then "COMPLETED".data
    else "INCOMPLETE:执行失败".data

/-- The branch of `ExecutorAgent.run` that acts on the evaluation string
(executor.py lines 80-131): `COMPLETED` hands to Summary; `INCOMPLETE`
runs loop detection and either resets the plan for the Planner or gives up
to Summary; everything else (`BLOCKED`) hands to Summary. -/
def evalDecide (ctx : AgentContext) (evaluation : List Char) :
    AgentContext × AgentName × List EvKind :=
  if listStartsWith "COMPLETED".data evaluation then (ctx, .SummaryAgent, [])
  else if listStartsWith "INCOMPLETE".data evaluation then
    let reason := match splitOnceSub ":".data evaluation with
      | some (_, after) => after
      | none => "目标未完成".data
    let ctx₁ :=
      if reason = ctx.last_failure_reason then
        { ctx with replan_count := ctx.replan_count + 1 }
      else
        { ctx with last_failure_reason := reason, replan_count := 0 }
    if ctx₁.replan_count < ctx₁.max_replans then
      ({ ctx₁ with
          steps := [],
          current_step_idx := 0,
          retry_count := 0,
          memory := ctx₁.memory ++
            [⟨.assistant, "上次执行未能完成目标：".data ++ reason⟩] },
        .PlannerAgent, [.log])
    else (ctx₁, .SummaryAgent, [.log])
  else (ctx, .SummaryAgent, [.log])

/-- Result of one iteration of the executor's step loop: either the loop
continues with an updated context, or the agent returns a handoff. -/
inductive IterOut
  | cont (ctx : AgentContext) (ev : List EvKind)
  | handoff (ctx : AgentContext) (next : AgentName) (ev : List EvKind)
  deriving Repr

/-- The shared failure tail of the loop body (`step.status = "failed"`,
emit tasks, then either hand off to Repair while `retry_count <
max_retries` or skip the step and reset the counter). -/
def execFail (ctx : AgentContext) (step : Step) (ev : List EvKind) : IterOut :=
  let step := { step with status := .failed }
  let ctx := { ctx with steps := ctx.steps.set ctx.current_step_idx step }
  if ctx.retry_count < ctx.max_retries then
    .handoff ctx .RepairAgent (ev ++ [.tasks])
  else
    .cont { ctx with
        current_step_idx := ctx.current_step_idx + 1,
        retry_count := 0 } (ev ++ [.tasks])

/-- One iteration of the executor's `while` loop for the current step
(executor.py lines 18-72).  `step` is `ctx.steps[ctx.current_step_idx]`. -/
def execIterate (o : ExecOracle) (ctx : AgentContext) (step : Step) : IterOut :=
  let idx := ctx.current_step_idx
  let step := { step with status := .running }
  let ctx := { ctx with steps := ctx.steps.set idx step }
  if step.command.isEmpty then
    let step := { step with status := .failed, error := missingCmdError }
    .cont { ctx with
        steps := ctx.steps.set idx step,
        current_step_idx := idx + 1 } [.tasks, .log, .tasks]
  else if is_catastrophic step.command then
    let step := { step with status := .failed, error := safetyGateError }
    .cont { ctx with
        steps := ctx.steps.set idx step,
        current_step_idx := idx + 1 } [.tasks, .log, .log, .tasks]
  else
    match o.shell idx with
    | .ok raw =>
      let output := clean_output raw
      let step := { step with output := output }
      let ctx := { ctx with steps := ctx.steps.set idx step }
      if check_fatal_error output then
        let step := { step with error := extract_error_message output }
        execFail { ctx with steps := ctx.steps.set idx step } step
          [.tasks, .log, .terminal, .log]
      else
        let step := { step with status := .done }
        .cont { ctx with
            steps := ctx.steps.set idx step,
            outputs := ctx.outputs ++
              ["[".data ++ step.title ++ "]\n".data ++ step.output],
            current_step_idx := idx + 1,
            retry_count := 0 } [.tasks, .log, .terminal, .log, .tasks]
    | .timeoutE msg =>
      let step := { step with error := timeoutErrorMsg msg }
      execFail { ctx with steps := ctx.steps.set idx step } step
        [.tasks, .log, .log]
    | .exn msg =>
      let step := { step with error := msg }
      execFail { ctx with steps := ctx.steps.set idx step } step
        [.tasks, .log, .log]

theorem execIterate_cont_shape {o : ExecOracle} {ctx ctx' : AgentContext}
    {step : Step} {ev : List EvKind}
    (h : execIterate o ctx step = .cont ctx' ev) :
    ctx'.steps.length = ctx.steps.length ∧
    ctx'.current_step_idx = ctx.current_step_idx + 1 := by
  simp only [execIterate, execFail] at h
  repeat' split at h
  all_goals cases h
  all_goals exact ⟨by simp, by simp⟩

/-- The executor's step loop followed by goal evaluation
(`ExecutorAgent.run`).  The fuel argument tracks
`ctx.steps.length - ctx.current_step_idx` exactly: every `cont` iteration
keeps the step count and advances the index by one
(`execIterate_cont_shape`), so fuel 0 coincides with the loop's exit
condition `current_step_idx ≥ len(steps)`. -/
def execGo (o : ExecOracle) : Nat → AgentContext →
    AgentContext × AgentName × List EvKind
  | 0, ctx => evalDecide ctx (evaluate_goal_completion ctx.steps o.evalResp)
  | fuel + 1, ctx =>
    if h : ctx.current_step_idx < ctx.steps.length then
      match execIterate o ctx (ctx.steps.get ⟨ctx.current_step_idx, h⟩) with
      | .cont ctx' ev =>
        let r := execGo o fuel ctx'
        (r.1, r.2.1, ev ++ r.2.2)
      | .handoff ctx' next ev => (ctx', next, ev)
    else
      evalDecide ctx (evaluate_goal_completion ctx.steps o.evalResp)

/-- `ExecutorAgent.run`. -/
def executorRun (o : ExecOracle) (ctx : AgentContext) :
    AgentContext × AgentName × List EvKind :=
  execGo o (ctx.steps.length - ctx.current_step_idx) ctx

/-! ## `src/agents/repair.py` -/

/-- The repair-title marker `[修复] ` prepended to each repair step. -/
def repairMarker : List Char := "[修复] ".data

/-- The line grammar of `RepairAgent._generate_repair`: strip, require
`::`, strip list decoration `0123456789.-) `, require `::` again, split
once, strip backticks off the command, drop empty commands and `/path/to`
placeholders.  (`split("::", 1)` always yields two parts once `::` is
present, so the `len(parts) != 2` guard is dead.) -/
def repairParseLine (line : List Char) : Option Step :=
  let line := pyStrip line
  if ¬ strContains line "::".data then none
  else
    let line := pyStrip (pyLstripSet "0123456789.-) ".data line)
    if ¬ strContains line "::".data then none
    else
      match splitOnceSub "::".data line with
      | none => none
      | some (title, cmd) =>
        let cmd := pyStripSet [bqChar] (pyStrip cmd)
        if cmd.isEmpty || strContains cmd "/path/to".data then none
        else some { title := repairMarker ++ pyStrip title, command := cmd }

/-- Parse the repair LLM response and keep at most two steps. -/
def repairParse (suggestion : List Char) : List Step :=
  ((pySplitlines suggestion).filterMap repairParseLine).take 2

/-- `RepairAgent.run`.  `resp` is the repair LLM call's outcome
(`Except.error` models a raised exception, which the agent catches by
skipping the failed step). -/
def repairRun (ctx : AgentContext) (resp : Except Unit (List Char)) :
    AgentContext × Option AgentName × List EvKind :=
  match ctx.steps[ctx.current_step_idx]? with
  | none => (ctx, some .SummaryAgent, [])
  | some _failed_step =>
    let ctx := { ctx with retry_count := ctx.retry_count + 1 }
    match resp with
    | .error _ =>
      ({ ctx with
          current_step_idx := ctx.current_step_idx + 1,
          retry_count := 0 }, some .ExecutorAgent, [])
    | .ok suggestion =>
      let repair_steps := repairParse suggestion
      if repair_steps.isEmpty then
        ({ ctx with
            current_step_idx := ctx.current_step_idx + 1,
            retry_count := 0 }, some .ExecutorAgent, [])
      else
        let insert_idx := ctx.current_step_idx + 1
        ({ ctx with
            steps := ctx.steps.take insert_idx ++ repair_steps ++
              ctx.steps.drop insert_idx,
            current_step_idx := ctx.current_step_idx + 1 },
          some .ExecutorAgent, [.tasks, .log])

/-! ## `src/agents/planner.py`, `router.py`, `chat.py`, `summary.py` -/

def plannerPlaceholders : List (List Char) :=
  [ "/path/to".data, "xxx".data, "用户名".data, "文件名".data, "目录名".data,
    "服务名".data, "包名".data, "your_".data, "YOUR_".data,
    "[name]".data, "\x7bname\x7d".data ]

def plannerDangerous : List (List Char) :=
  [ "rm -rf /".data, "rm -rf /*".data, "rm -fr /".data, "rm -fr /*".data,
    "> /dev/sda".data, "mkfs.".data, "dd if=".data, ":()\x7b:|:&\x7d;:".data ]

/-- The line grammar of `PlannerAgent._generate_plan` (the repair grammar
plus `*` in the decoration set, a final `strip`, and the placeholder and
dangerous-literal filters). -/
def plannerParseLine (line : List Char) : Option Step :=
  let line := pyStrip line
  if ¬ strContains line "::".data then none
  else
    let line := pyStrip (pyLstripSet "0123456789.-) *".data line)
    if ¬ strContains line "::".data then none
    else
      match splitOnceSub "::".data line with
      | none => none
      | some (title, cmd) =>
        let cmd := pyStrip (pyStripSet [bqChar] (pyStrip cmd))
        if cmd.isEmpty then none
        else if plannerPlaceholders.any (fun p => strContains cmd p) then none
        else if plannerDangerous.any (fun p => strContains cmd p) then none
        else some { title := pyStrip title, command := cmd }

def plannerParse (plan_text : List Char) : List Step :=
  (pySplitlines plan_text).filterMap plannerParseLine

/-- `PlannerAgent.run`.  `planResp` covers `shell.start()` plus the plan
LLM call (an exception in either lands in the same `except` and returns a
terminal result without touching `ctx.steps`); an empty parse raises
`ValueError` before `ctx.steps` is assigned.  `introResp` is the intro LLM
call, whose failure falls back to a fixed string inside the agent. -/
def plannerRun (ctx : AgentContext) (planResp introResp : Except Unit (List Char)) :
    AgentContext × Option AgentName × List EvKind :=
  match planResp with
  | .error _ => (ctx, none, [.errorE])
  | .ok plan_text =>
    let steps := plannerParse plan_text
    if steps.isEmpty then (ctx, none, [.errorE])
    else
      let intro := match introResp with
        | .ok s => s
        | .error _ =>
          "好的，我将分 ".data ++ (toString steps.length).data ++
            " 步来完成这个任务。".data
      ({ ctx with
          steps := steps,
          memory := ctx.memory ++ [⟨.assistant, intro⟩] },
        some .ExecutorAgent, [.reply, .tasks])

/-- `RouterAgent.run`: append the user message to memory, classify, route
(`CHAT` token, case-insensitive, means chat; a classification exception
defaults to task). -/
def routerRun (ctx : AgentContext) (resp : Except Unit (List Char)) :
    AgentContext × Option AgentName × List EvKind :=
  let ctx := { ctx with memory := ctx.memory ++ [⟨.user, ctx.goal⟩] }
  let is_chat := match resp with
    | .ok r => strContains (upperStr r) "CHAT".data
    | .error _ => false
  if is_chat then (ctx, some .ChatAgent, [])
  else (ctx, some .PlannerAgent, [])

/-- `ChatAgent.run`: emit the reply (or the apology fallback) and end the
chain. -/
def chatRun (ctx : AgentContext) (resp : Except Unit (List Char)) :
    AgentContext × Option AgentName × List EvKind :=
  match resp with
  | .ok reply =>
    ({ ctx with memory := ctx.memory ++ [⟨.assistant, reply⟩] }, none, [.reply])
  | .error _ => (ctx, none, [.reply])

/-- `SummaryAgent.run`: emit the summary (or the numeric fallback) and end
the chain. -/
def summaryRun (ctx : AgentContext) (resp : Except Unit (List Char)) :
    AgentContext × Option AgentName × List EvKind :=
  match resp with
  | .ok s =>
    ({ ctx with memory := ctx.memory ++ [⟨.assistant, s⟩] }, none, [.summaryE])
  | .error _ => (ctx, none, [.summaryE])

/-! ## `src/agents/orchestrator.py` -/

/-- Environment data consumed by one orchestrator iteration (whichever
agent runs draws from it). -/
structure TurnOracle where
  routerResp : Except Unit (List Char)
  chatResp : Except Unit (List Char)
  planResp : Except Unit (List Char)
  introResp : Except Unit (List Char)
  summaryResp : Except Unit (List Char)
  exec : ExecOracle
  repairResp : Except Unit (List Char)

/-- Result of one agent invocation as the orchestrator sees it: the
(possibly mutated) context, either the next agent or a raised exception,
and the events emitted. -/
structure BehOut where
  ctx : AgentContext
  outcome : Except (List Char) (Option AgentName)
  events : List EvKind

/-- An agent behaviour: what `agent.run(ctx)` does at each invocation.
`orchGo` is proved for arbitrary behaviours (covering any exception an
agent could raise) and instantiated with `realAgents`. -/
def OrchBeh : Type :=
  AgentName → AgentContext → TurnOracle → BehOut

/-- The behaviour of the six real agents.  None of them lets an exception
escape `run` (each wraps its fallible work in try/except), so the outcome
is always `.ok`. -/
def realAgents : OrchBeh := fun name ctx o =>
  match name with
  | .RouterAgent =>
    let r := routerRun ctx o.routerResp
    ⟨r.1, .ok r.2.1, r.2.2⟩
  | .ChatAgent =>
    let r := chatRun ctx o.chatResp
    ⟨r.1, .ok r.2.1, r.2.2⟩
  | .PlannerAgent =>
    let r := plannerRun ctx o.planResp o.introResp
    ⟨r.1, .ok r.2.1, r.2.2⟩
  | .ExecutorAgent =>
    let r := executorRun o.exec ctx
    ⟨r.1, .ok (some r.2.1), r.2.2⟩
  | .RepairAgent =>
    let r := repairRun ctx o.repairResp
    ⟨r.1, .ok r.2.1, r.2.2⟩
  | .SummaryAgent =>
    let r := summaryRun ctx o.summaryResp
    ⟨r.1, .ok r.2.1, r.2.2⟩

/-- Result of `AgentOrchestrator.run`: the final context (whose `steps` is
the return value), the event trace, the number of agent invocations, and
whether some agent crashed. -/
structure OrchResult where
  ctx : AgentContext
  trace : List EvKind
  invocations : Nat
  crashed : Bool

/-- The orchestrator loop (orchestrator.py lines 76-110): while a current
agent is set and fewer than 20 iterations have run, invoke the agent and
follow `result.next_agent`; a raised exception is caught, reported as an
`error` event (when a stream callback is present) and ends the turn.  The
fuel argument is `20 - iteration` (the single entry point passes fuel 20
at iteration 0 and both move in lockstep), so exhausted fuel is exactly
the `iteration < max_iterations` guard failing. -/
def orchGo (B : OrchBeh) (oracle : Nat → TurnOracle) (emitP : Bool) :
    Nat → Nat → Option AgentName → AgentContext → List EvKind → OrchResult
  | _, iteration, none, ctx, trace => ⟨ctx, trace, iteration, false⟩
  | 0, iteration, some _, ctx, trace => ⟨ctx, trace, iteration, false⟩
  | fuel + 1, iteration, some name, ctx, trace =>
    let r := B name ctx (oracle iteration)
    match r.outcome with
    | .ok next =>
      orchGo B oracle emitP fuel (iteration + 1) next r.ctx (trace ++ r.events)
    | .error _ =>
      ⟨r.ctx, trace ++ r.events ++ (if emitP then [.errorE] else []),
        iteration + 1, true⟩

/-- The context `AgentOrchestrator.run` creates for a turn
(`max_retries=3` override; all other fields at their defaults). -/
def initCtx (goal : List Char) (memory : List MemEntry) : AgentContext :=
  { goal := goal, memory := memory, max_retries := 3 }

/-- `AgentOrchestrator.run`: start at the Router with a fresh context and
the 20-iteration cap. -/
def orchestrator_run (B : OrchBeh) (oracle : Nat → TurnOracle) (emitP : Bool)
    (goal : List Char) (memory : List MemEntry) : OrchResult :=
  orchGo B oracle emitP 20 0 (some .RouterAgent) (initCtx goal memory) []

/-- One orchestrator step over configurations `(current agent, context)`,
for the real agents (used to quantify over every state reachable during a
turn; the iteration cap only truncates this sequence). -/
def orchStepReal (o : TurnOracle) (cfg : Option AgentName × AgentContext) :
    Option AgentName × AgentContext :=
  match cfg.1 with
  | none => cfg
  | some name =>
    let r := realAgents name cfg.2 o
    (match r.outcome with
      | .ok next => next
      | .error _ => none,
      r.ctx)

/-- The configuration after `n` orchestrator steps of a turn. -/
def reachCfg (oracle : Nat → TurnOracle) (goal : List Char)
    (memory : List MemEntry) : Nat → Option AgentName × AgentContext
  | 0 => (some .RouterAgent, initCtx goal memory)
  | n + 1 => orchStepReal (oracle n) (reachCfg oracle goal memory n)

/-! ## Supporting lemmas -/

theorem mem_of_mem_dropWhile {a : Char} {p : Char → Bool} {l : List Char}
    (h : a ∈ l.dropWhile p) : a ∈ l := by
  induction l with
  | nil => simpa using h
  | cons c t ih =>
    by_cases hp : p c
    · simp only [List.dropWhile, hp] at h
      exact List.mem_cons_of_mem c (ih h)
    · simpa [List.dropWhile, hp] using h

theorem mem_of_mem_pyStrip {a : Char} {s : List Char} (h : a ∈ pyStrip s) :
    a ∈ s := by
  unfold pyStrip dropRightWhile dropLeftWhile at h
  rw [List.mem_reverse] at h
  have h₁ := mem_of_mem_dropWhile h
  rw [List.mem_reverse] at h₁
  exact mem_of_mem_dropWhile h₁

theorem not_mem_removeChar (c : Char) (s : List Char) : c ∉ removeChar c s := by
  unfold removeChar
  intro h
  have := (List.mem_filter.mp h).2
  simp at this

theorem not_mem_removeChar_of_not_mem {a c : Char} {s : List Char}
    (h : a ∉ s) : a ∉ removeChar c s := by
  unfold removeChar
  intro hmem
  exact h (List.mem_filter.mp hmem).1

/-! ## Claim theorems -/

/-- Claim C10 (confirmed): the Executor's second-layer cleaner
`clean_output` removes every `ESC` (0x1B) and `BEL` (0x07) byte
unconditionally — the two `str.replace` calls run after the regex pass and
delete the bytes wherever they occur, well-formed escape sequence or not —
so the text it produces (which `_execute_step` assigns to `step.output` and
emits as the `terminal` event) never contains `ESC` or `BEL`. -/
theorem clean_output_no_esc_bel (text : List Char) :
    '\x1b' ∉ clean_output text ∧ '\x07' ∉ clean_output text := by
  unfold clean_output
  constructor
  · intro h
    have h₁ := mem_of_mem_pyStrip h
    have h₂ := not_mem_removeChar_of_not_mem
      (not_mem_removeChar '\x1b' (ansiBaseStrip text)) (c := '\x07')
    exact h₂ h₁
  · intro h
    exact not_mem_removeChar '\x07' _ (mem_of_mem_pyStrip h)

/-- Claim C9 (confirmed): `run_command` called while the shell child is
absent or dead raises `RuntimeError("Shell not started")` immediately:
before the session lock is acquired, before anything is written to the
PTY (empty write trace), and with the session state unchanged. -/
theorem run_command_dead_shell (st : ShellState) (command : List Char)
    (handlers : List (List Char × List Char)) (events : List LoopEv)
    (h : st.childAlive ≠ some true) :
    run_command st command handlers events =
      (st, [], some (.error .shellNotStarted)) := by
  unfold run_command
  cases hc : st.childAlive with
  | none => simp
  | some b =>
    cases b with
    | true => exact absurd hc h
    | false => simp

/-- Witness for C9 at a concrete dead-shell state. -/
theorem run_command_dead_shell_witness :
    run_command ⟨none, [], false⟩ "ls".data [] [] =
      (⟨none, [], false⟩, [], some (.error .shellNotStarted)) :=
  run_command_dead_shell ⟨none, [], false⟩ "ls".data [] [] (by decide)

/-- Claim C5 (confirmed): success tokens are checked first as
case-insensitive substrings and suppress error detection entirely; when no
success token is present, the output is flagged fatal exactly when some
pattern of the fatal table matches the lowercased output under regex
semantics (`fatalMatchOne`; every pattern in the fixed table compiles, so
the literal-substring fallback for non-compiling patterns never fires). -/
theorem check_fatal_error_spec (output : List Char) :
    ((∃ p ∈ SUCCESS_PATTERNS, strContains (lowerStr output) (lowerStr p) = true) →
      check_fatal_error output = false) ∧
    ((∀ p ∈ SUCCESS_PATTERNS, strContains (lowerStr output) (lowerStr p) = false) →
      (check_fatal_error output = true ↔
        ∃ p ∈ FATAL_ERROR_PATTERNS,
          fatalMatchOne (lowerStr p) (lowerStr output) = true)) := by
  unfold check_fatal_error
  constructor
  · rintro ⟨p, hp, hc⟩
    have hany : SUCCESS_PATTERNS.any
        (fun p => strContains (lowerStr output) (lowerStr p)) = true :=
      List.any_eq_true.mpr ⟨p, hp, hc⟩
    simp [hany]
  · intro hall
    have hany : SUCCESS_PATTERNS.any
        (fun p => strContains (lowerStr output) (lowerStr p)) = false := by
      rw [List.any_eq_false]
      intro p hp
      simp [hall p hp]
    simp [hany, List.any_eq_true]

/-- Witness for C5: a success token suppresses a fatal pattern; a fatal
pattern alone flags the output. -/
theorem check_fatal_error_spec_witness :
    check_fatal_error "Complete! command not found".data = false ∧
    check_fatal_error "bash: command not found".data = true := by
  constructor
  · exact (check_fatal_error_spec _).1 ⟨"Complete!".data, by decide, by decide⟩
  · exact ((check_fatal_error_spec _).2 (by decide)).mpr
      ⟨"command not found".data, by decide, by decide⟩

/-- A seven-step execution record with 4 done and 3 failed steps (so
`done > failed` but `done < 70%`). -/
def c4Steps : List Step :=
  List.replicate 4 { title := "d".data, command := "c".data, status := .done } ++
  List.replicate 3 { title := "f".data, command := "c".data, status := .failed }

/-- Counterexample to claim C4: with 4 done and 3 failed steps and an
unparseable evaluator reply, `done` exceeds `failed`, yet the fallback
returns `INCOMPLETE:部分步骤失败`, not `COMPLETED` — the `done > failed`
disjunct the claim states lives only in the LLM-exception fallback, not in
the unparseable-reply fallback. -/
theorem evaluate_fallback_counterexample :
    doneCountOf c4Steps = 4 ∧ failedCountOf c4Steps = 3 ∧
    (listStartsWith "COMPLETED".data (upperStr (pyStrip "cannot tell".data)) = false ∧
     listStartsWith "INCOMPLETE".data (upperStr (pyStrip "cannot tell".data)) = false ∧
     listStartsWith "BLOCKED".data (upperStr (pyStrip "cannot tell".data)) = false) ∧
    evaluate_goal_completion c4Steps (.ok "cannot tell".data) =
      "INCOMPLETE:部分步骤失败".data := by decide

/-- Claim C4 as amended: when the normalized reply starts with none of
`COMPLETED`/`INCOMPLETE`/`BLOCKED`, the result is `COMPLETED` exactly when
at least 70% of the steps are done, else `INCOMPLETE:部分步骤失败`; the
`done > failed` disjunct applies only in the separate fallback used when
the evaluation LLM call raises. -/
theorem evaluate_fallback_amended (steps : List Step) (r : List Char)
    (h₁ : listStartsWith "COMPLETED".data (upperStr (pyStrip r)) = false)
    (h₂ : listStartsWith "INCOMPLETE".data (upperStr (pyStrip r)) = false)
    (h₃ : listStartsWith "BLOCKED".data (upperStr (pyStrip r)) = false) :
    evaluate_goal_completion steps (.ok r) =
      (if 10 * doneCountOf steps ≥ 7 * steps.length then "COMPLETED".data
       else "INCOMPLETE:部分步骤失败".data) ∧
    evaluate_goal_completion steps (.error ()) =
      (if failedCountOf steps = 0 ∨ doneCountOf steps > failedCountOf steps
       then "COMPLETED".data else "INCOMPLETE:执行失败".data) := by
  constructor
  · simp [evaluate_goal_completion, h₁, h₂, h₃]
  · simp only [evaluate_goal_completion]
    split_ifs with ha hb hc hd he <;> first | rfl | omega | tauto

/-- Witness for C4's amended theorem at the concrete 4-done/3-failed
record and an unparseable reply. -/
theorem evaluate_fallback_amended_witness :
    evaluate_goal_completion c4Steps (.ok "cannot tell".data) =
      (if 10 * doneCountOf c4Steps ≥ 7 * c4Steps.length then "COMPLETED".data
       else "INCOMPLETE:部分步骤失败".data) ∧
    evaluate_goal_completion c4Steps (.error ()) =
      (if failedCountOf c4Steps = 0 ∨ doneCountOf c4Steps > failedCountOf c4Steps
       then "COMPLETED".data else "INCOMPLETE:执行失败".data) :=
  evaluate_fallback_amended c4Steps "cannot tell".data
    (by decide) (by decide) (by decide)

/-- Trace of repeated goal evaluations that all return `INCOMPLETE:X`:
each entry is the handoff target and the `replan_count` after that
evaluation. -/
def c3Trace (X : List Char) : Nat → AgentContext → List (AgentName × Nat)
  | 0, _ => []
  | n + 1, ctx =>
    let r := evalDecide ctx ("INCOMPLETE:".data ++ X)
    (r.2.1, r.1.replan_count) :: c3Trace X n r.1

/-- Counterexample to claim C3: starting from the orchestrator's fresh
context (empty `lastFailureReason`, `replanCount = 0`, `maxReplans = 3`),
after the evaluator returns `INCOMPLETE:X` twice with the same reason the
`replanCount` is 1, not the cap 3, and the second evaluation (and even the
third) hands off to the Planner, not to Summary.  The evaluation string is
produced by the real pipeline (`evaluate_goal_completion` on the raw LLM
reply `INCOMPLETE:X`). -/
theorem replan_cap_counterexample :
    evaluate_goal_completion [] (.ok "INCOMPLETE:X".data) = "INCOMPLETE:X".data ∧
    (initCtx "g".data []).max_replans = 3 ∧
    c3Trace "X".data 3 (initCtx "g".data []) =
      [(.PlannerAgent, 0), (.PlannerAgent, 1), (.PlannerAgent, 2)] := by decide

theorem evalDecide_not_completed (X : List Char) :
    listStartsWith "COMPLETED".data ("INCOMPLETE:".data ++ X) = false := rfl

theorem evalDecide_is_incomplete (X : List Char) :
    listStartsWith "INCOMPLETE".data ("INCOMPLETE:".data ++ X) = true := rfl

theorem evalDecide_reason (X : List Char) :
    splitOnceSub ":".data ("INCOMPLETE:".data ++ X) =
      some ("INCOMPLETE".data, X) := rfl

/-- A fresh `INCOMPLETE:X` reason (different from the recorded one)
records the reason, resets `replan_count` and, while below the cap,
resets the plan and hands off to the Planner. -/
theorem evalDecide_incX_fresh (ctx : AgentContext) (X : List Char)
    (hne : ¬ X = ctx.last_failure_reason) (hlt : 0 < ctx.max_replans) :
    evalDecide ctx ("INCOMPLETE:".data ++ X) =
      ({ ctx with
          last_failure_reason := X,
          replan_count := 0,
          steps := [],
          current_step_idx := 0,
          retry_count := 0,
          memory := ctx.memory ++
            [⟨.assistant, "上次执行未能完成目标：".data ++ X⟩] },
        .PlannerAgent, [.log]) := by
  unfold evalDecide
  rw [evalDecide_not_completed, evalDecide_is_incomplete, evalDecide_reason]
  simp [hne, hlt]

/-- A repeated `INCOMPLETE:X` reason increments `replan_count`; while the
incremented count is still below the cap the turn replans. -/
theorem evalDecide_incX_same_lt (ctx : AgentContext) (X : List Char)
    (heq : X = ctx.last_failure_reason)
    (hlt : ctx.replan_count + 1 < ctx.max_replans) :
    evalDecide ctx ("INCOMPLETE:".data ++ X) =
      ({ ctx with
          replan_count := ctx.replan_count + 1,
          steps := [],
          current_step_idx := 0,
          retry_count := 0,
          memory := ctx.memory ++
            [⟨.assistant, "上次执行未能完成目标：".data ++ X⟩] },
        .PlannerAgent, [.log]) := by
  unfold evalDecide
  rw [evalDecide_not_completed, evalDecide_is_incomplete, evalDecide_reason]
  simp [heq, hlt]

/-- A repeated `INCOMPLETE:X` reason that takes `replan_count` to the cap
hands off to Summary. -/
theorem evalDecide_incX_same_ge (ctx : AgentContext) (X : List Char)
    (heq : X = ctx.last_failure_reason)
    (hge : ¬ ctx.replan_count + 1 < ctx.max_replans) :
    evalDecide ctx ("INCOMPLETE:".data ++ X) =
      ({ ctx with replan_count := ctx.replan_count + 1 },
        .SummaryAgent, [.log]) := by
  unfold evalDecide
  rw [evalDecide_not_completed, evalDecide_is_incomplete, evalDecide_reason]
  simp [heq, hge]

/-- Claim C3 as amended: with the default cap `maxReplans = 3`, the
evaluator must return `INCOMPLETE:X` with the same non-empty reason `X`
four times (not twice) starting from a fresh turn; the first three
evaluations hand off to the Planner with `replanCount` 0, 1, 2, and the
fourth reaches the cap and hands off to Summary. -/
theorem replan_cap_amended (X : List Char) (hX : X ≠ []) (ctx : AgentContext)
    (hlast : ctx.last_failure_reason = []) (hrc : ctx.replan_count = 0)
    (hmax : ctx.max_replans = 3) :
    c3Trace X 4 ctx =
      [(.PlannerAgent, 0), (.PlannerAgent, 1), (.PlannerAgent, 2),
       (.SummaryAgent, 3)] := by
  have hne : ¬ (X = ctx.last_failure_reason) := by
    rw [hlast]; exact hX
  have e1 : evalDecide ctx ("INCOMPLETE:".data ++ X) =
      (⟨ctx.goal,
        ctx.memory ++ [⟨.assistant, "上次执行未能完成目标：".data ++ X⟩],
        [], ctx.outputs, 0, 0, ctx.max_retries, 0, ctx.max_replans, X⟩,
       .PlannerAgent, [.log]) :=
    evalDecide_incX_fresh ctx X hne (by omega)
  have e2 : evalDecide
      (⟨ctx.goal,
        ctx.memory ++ [⟨.assistant, "上次执行未能完成目标：".data ++ X⟩],
        [], ctx.outputs, 0, 0, ctx.max_retries, 0, ctx.max_replans, X⟩ :
          AgentContext)
      ("INCOMPLETE:".data ++ X) =
      (⟨ctx.goal,
        (ctx.memory ++ [⟨.assistant, "上次执行未能完成目标：".data ++ X⟩]) ++
          [⟨.assistant, "上次执行未能完成目标：".data ++ X⟩],
        [], ctx.outputs, 0, 0, ctx.max_retries, 1, ctx.max_replans, X⟩,
       .PlannerAgent, [.log]) :=
    evalDecide_incX_same_lt _ X rfl (by show 0 + 1 < ctx.max_replans; omega)
  have e3 : evalDecide
      (⟨ctx.goal,
        (ctx.memory ++ [⟨.assistant, "上次执行未能完成目标：".data ++ X⟩]) ++
          [⟨.assistant, "上次执行未能完成目标：".data ++ X⟩],
        [], ctx.outputs, 0, 0, ctx.max_retries, 1, ctx.max_replans, X⟩ :
          AgentContext)
      ("INCOMPLETE:".data ++ X) =
      (⟨ctx.goal,
        ((ctx.memory ++ [⟨.assistant, "上次执行未能完成目标：".data ++ X⟩]) ++
          [⟨.assistant, "上次执行未能完成目标：".data ++ X⟩]) ++
          [⟨.assistant, "上次执行未能完成目标：".data ++ X⟩],
        [], ctx.outputs, 0, 0, ctx.max_retries, 2, ctx.max_replans, X⟩,
       .PlannerAgent, [.log]) :=
    evalDecide_incX_same_lt _ X rfl (by show 1 + 1 < ctx.max_replans; omega)
  have e4 : evalDecide
      (⟨ctx.goal,
        ((ctx.memory ++ [⟨.assistant, "上次执行未能完成目标：".data ++ X⟩]) ++
          [⟨.assistant, "上次执行未能完成目标：".data ++ X⟩]) ++
          [⟨.assistant, "上次执行未能完成目标：".data ++ X⟩],
        [], ctx.outputs, 0, 0, ctx.max_retries, 2, ctx.max_replans, X⟩ :
          AgentContext)
      ("INCOMPLETE:".data ++ X) =
      (⟨ctx.goal,
        ((ctx.memory ++ [⟨.assistant, "上次执行未能完成目标：".data ++ X⟩]) ++
          [⟨.assistant, "上次执行未能完成目标：".data ++ X⟩]) ++
          [⟨.assistant, "上次执行未能完成目标：".data ++ X⟩],
        [], ctx.outputs, 0, 0, ctx.max_retries, 3, ctx.max_replans, X⟩,
       .SummaryAgent, [.log]) :=
    evalDecide_incX_same_ge _ X rfl (by show ¬ 2 + 1 < ctx.max_replans; omega)
  simp only [c3Trace, e1, e2, e3, e4]

/-- Witness for C3's amended theorem at the concrete reason `X` and the
orchestrator's fresh context. -/
theorem replan_cap_amended_witness :
    c3Trace "X".data 4 (initCtx "g".data []) =
      [(.PlannerAgent, 0), (.PlannerAgent, 1), (.PlannerAgent, 2),
       (.SummaryAgent, 3)] :=
  replan_cap_amended "X".data (by decide) (initCtx "g".data [])
    (by decide) (by decide) (by decide)

/-- The targets claim C1 names for the recursive-`rm` gate: `/` itself and
each critical root, bare or with a trailing slash. -/
def specC1Targets : List (List Char) :=
  ["/".data] ++ critical_paths ++ critical_paths.map (· ++ "/".data)

/-- The claim's recursive-`rm` condition, written from the claim's own
words for comparison against `is_catastrophic`: a recursive `rm` with flag
`-r`, `-rf` or `-fr` whose target after the flags is one of
`specC1Targets` (in its simplest written form `rm FLAG TARGET`). -/
def spec_recursive_rm (cmd : List Char) : Bool :=
  ["-r".data, "-rf".data, "-fr".data].any fun f =>
    specC1Targets.any fun t => cmd = "rm ".data ++ f ++ " ".data ++ t

/-- Counterexample to claim C1: `rm -r /` (and likewise `rm -r /etc`) is a
recursive `rm` of the root in exactly the claim's sense, yet
`_is_catastrophic` does not block it — its root branch requires the
contiguous substring `rm-rf/` or `rm-fr/` after despacing, and its
critical-root branch requires `-rf` or `-fr`, so the lone `-r` flag is
never blocked. -/
theorem catastrophic_gate_counterexample :
    spec_recursive_rm "rm -r /".data = true ∧
    is_catastrophic "rm -r /".data = false ∧
    spec_recursive_rm "rm -r /etc".data = true ∧
    is_catastrophic "rm -r /etc".data = false := by decide

/-- Claim C1 as amended: the gate blocks a recursive `rm` written with the
combined flag `-rf` or `-fr` (a lone `-r` is not blocked) whose target is
`/` or a critical root, bare or with a trailing slash; and whenever the
gate fires on the current step, the executor records the step as failed
with the safety-gate error, advances `current_step_idx` past it, and
continues the loop (a `cont` outcome — never a Repair handoff). -/
theorem catastrophic_gate_amended :
    (∀ f ∈ [ "-rf".data, "-fr".data ], ∀ t ∈ specC1Targets,
      is_catastrophic ("rm ".data ++ f ++ " ".data ++ t) = true) ∧
    (∀ (o : ExecOracle) (ctx : AgentContext) (step : Step),
      step.command.isEmpty = false →
      is_catastrophic step.command = true →
      execIterate o ctx step = .cont
        { ctx with
            steps := ctx.steps.set ctx.current_step_idx
              { step with status := .failed, error := safetyGateError },
            current_step_idx := ctx.current_step_idx + 1 }
        [.tasks, .log, .log, .tasks]) := by
  constructor
  · decide
  · intro o ctx step hcmd hcat
    simp only [execIterate]
    simp [hcmd, hcat, List.set_set]

/-- Witness for C1's amended theorem: the gate fires on `rm -rf /etc`, and
the executor turns a blocked `rm -rf /` step into a failed step with the
safety error and moves on. -/
theorem catastrophic_gate_amended_witness :
    is_catastrophic ("rm ".data ++ "-rf".data ++ " ".data ++ "/etc".data) = true ∧
    execIterate ⟨fun _ => .exn [], .error ()⟩
        { initCtx "g".data [] with
            steps := [⟨"清理".data, "rm -rf /".data, .pending, [], []⟩] }
        ⟨"清理".data, "rm -rf /".data, .pending, [], []⟩ = .cont
      { { initCtx "g".data [] with
            steps := [⟨"清理".data, "rm -rf /".data, .pending, [], []⟩] } with
          steps := [⟨"清理".data, "rm -rf /".data, .pending, [], []⟩].set 0
            { (⟨"清理".data, "rm -rf /".data, .pending, [], []⟩ : Step) with
                status := .failed, error := safetyGateError },
          current_step_idx := 0 + 1 }
      [.tasks, .log, .log, .tasks] :=
  ⟨catastrophic_gate_amended.1 "-rf".data (by decide) "/etc".data (by decide),
   catastrophic_gate_amended.2 ⟨fun _ => .exn [], .error ()⟩
     { initCtx "g".data [] with
         steps := [⟨"清理".data, "rm -rf /".data, .pending, [], []⟩] }
     ⟨"清理".data, "rm -rf /".data, .pending, [], []⟩
     (by decide) (by decide)⟩

theorem listStartsWith_append_self (p q : List Char) :
    listStartsWith p (p ++ q) = true := by
  induction p with
  | nil => rfl
  | cons c t ih => simpa [listStartsWith] using ih

/-- Every step produced by the repair-line parser carries the repair
marker prefix on its title. -/
theorem repairParseLine_marker {line : List Char} {s : Step}
    (h : repairParseLine line = some s) :
    listStartsWith repairMarker s.title = true := by
  simp only [repairParseLine] at h
  repeat' split at h
  all_goals cases h
  exact listStartsWith_append_self _ _

theorem repairParse_marker {suggestion : List Char} {s : Step}
    (h : s ∈ repairParse suggestion) :
    listStartsWith repairMarker s.title = true := by
  unfold repairParse at h
  have h₁ := List.mem_of_mem_take h
  obtain ⟨line, _, hline⟩ := List.mem_filterMap.mp h₁
  exact repairParseLine_marker hline

/-- Claim C7 (confirmed): when Repair runs on an existing current step
with at least one parsed repair step, it keeps at most two steps, each
title carrying the repair marker, splices them in immediately after
`current_step_idx`, advances `current_step_idx` by exactly one — so the
step the Executor resumes at is the first inserted repair step — and hands
back to the Executor; with zero surviving steps it advances past the
failed step and resets `retry_count` to zero. -/
theorem repair_insertion_spec (ctx : AgentContext) (suggestion : List Char)
    (h : ctx.current_step_idx < ctx.steps.length) :
    (repairParse suggestion ≠ [] →
      repairRun ctx (.ok suggestion) =
        ({ ctx with
            retry_count := ctx.retry_count + 1,
            steps := ctx.steps.take (ctx.current_step_idx + 1) ++
              repairParse suggestion ++
              ctx.steps.drop (ctx.current_step_idx + 1),
            current_step_idx := ctx.current_step_idx + 1 },
          some .ExecutorAgent, [.tasks, .log]) ∧
      (repairParse suggestion).length ≤ 2 ∧
      (∀ s ∈ repairParse suggestion, listStartsWith repairMarker s.title = true) ∧
      (ctx.steps.take (ctx.current_step_idx + 1) ++ repairParse suggestion ++
        ctx.steps.drop (ctx.current_step_idx + 1))[ctx.current_step_idx + 1]? =
        (repairParse suggestion).head?) ∧
    (repairParse suggestion = [] →
      repairRun ctx (.ok suggestion) =
        ({ ctx with
            retry_count := 0,
            current_step_idx := ctx.current_step_idx + 1 },
          some .ExecutorAgent, [])) := by
  have hsome : ctx.steps[ctx.current_step_idx]? = some (ctx.steps.get ⟨_, h⟩) :=
    List.getElem?_eq_getElem h
  constructor
  · intro hne
    refine ⟨?_, ?_, fun s hs => repairParse_marker hs, ?_⟩
    · unfold repairRun
      rw [hsome]
      simp [List.isEmpty_iff, hne]
    · unfold repairParse
      have := List.length_take 2 ((pySplitlines suggestion).filterMap repairParseLine)
      omega
    · have hlen : (ctx.steps.take (ctx.current_step_idx + 1)).length =
          ctx.current_step_idx + 1 := by
        rw [List.length_take]
        omega
      rw [List.append_assoc, List.getElem?_append_right (by omega), hlen]
      simp only [Nat.sub_self]
      have hpos : 0 < (repairParse suggestion).length :=
        List.length_pos.mpr hne
      rw [List.getElem?_append, if_pos hpos]
      exact (List.head?_eq_getElem? _).symm
  · intro hempty
    unfold repairRun
    rw [hsome]
    simp [hempty]

/-- Witness for C7 at a concrete one-step context: a suggestion yielding
one repair step (spliced in, marker added, resuming at it) and one
yielding none (step skipped, retry reset). -/
theorem repair_insertion_spec_witness :
    repairRun { initCtx "g".data [] with
        steps := [⟨"安装".data, "apt install x".data, .failed, [], []⟩] }
      (.ok "fix::yum install x".data) =
      ({ { initCtx "g".data [] with
            steps := [⟨"安装".data, "apt install x".data, .failed, [], []⟩] } with
          retry_count := 0 + 1,
          steps := [⟨"安装".data, "apt install x".data, .failed, [], []⟩].take 1 ++
            repairParse "fix::yum install x".data ++
            [⟨"安装".data, "apt install x".data, .failed, [], []⟩].drop 1,
          current_step_idx := 0 + 1 },
        some .ExecutorAgent, [.tasks, .log]) ∧
    repairRun { initCtx "g".data [] with
        steps := [⟨"安装".data, "apt install x".data, .failed, [], []⟩] }
      (.ok "no valid lines here".data) =
      ({ { initCtx "g".data [] with
            steps := [⟨"安装".data, "apt install x".data, .failed, [], []⟩] } with
          retry_count := 0,
          current_step_idx := 0 + 1 },
        some .ExecutorAgent, []) :=
  ⟨((repair_insertion_spec _ "fix::yum install x".data (by decide)).1
      (by decide)).1,
   (repair_insertion_spec _ "no valid lines here".data (by decide)).2
      (by decide)⟩

/-- Core bound on the orchestrator loop: invocations never exceed
`iteration + fuel`, and a crash leaves an `error` event in the trace when a
stream callback is present. -/
theorem orchGo_spec (B : OrchBeh) (oracle : Nat → TurnOracle) (emitP : Bool)
    (fuel : Nat) :
    ∀ (iteration : Nat) (curr : Option AgentName) (ctx : AgentContext)
      (trace : List EvKind),
      (orchGo B oracle emitP fuel iteration curr ctx trace).invocations ≤
        iteration + fuel ∧
      ((orchGo B oracle emitP fuel iteration curr ctx trace).crashed = true →
        emitP = true →
        .errorE ∈ (orchGo B oracle emitP fuel iteration curr ctx trace).trace) := by
  induction fuel with
  | zero =>
    intro iteration curr ctx trace
    cases curr <;> simp [orchGo]
  | succ fuel ih =>
    intro iteration curr ctx trace
    cases curr with
    | none => simp [orchGo]
    | some name =>
      simp only [orchGo]
      cases hout : (B name ctx (oracle iteration)).outcome with
      | ok next =>
        have hres := ih (iteration + 1) next (B name ctx (oracle iteration)).ctx
          (trace ++ (B name ctx (oracle iteration)).events)
        constructor
        · dsimp only
          have h₁ := hres.1
          omega
        · dsimp only
          exact hres.2
      | error e =>
        constructor
        · dsimp only
          omega
        · intro _ hemit
          subst hemit
          simp

/-- Claim C2 (confirmed): for any agent behaviour (hence for any exception
an agent's `run` may raise), a turn performs at most 20 agent invocations;
an exception is caught inside the loop, an `error` event is emitted (the
stream callback being present), and `orchestrator_run` still returns — its
result carries the final context whose `steps` list is the return value of
`AgentOrchestrator.run`. -/
theorem orchestrator_caps (B : OrchBeh) (oracle : Nat → TurnOracle)
    (goal : List Char) (memory : List MemEntry) :
    (orchestrator_run B oracle true goal memory).invocations ≤ 20 ∧
    ((orchestrator_run B oracle true goal memory).crashed = true →
      .errorE ∈ (orchestrator_run B oracle true goal memory).trace) := by
  have h := orchGo_spec B oracle true 20 0 (some .RouterAgent)
    (initCtx goal memory) []
  exact ⟨by simpa [orchestrator_run] using h.1,
    fun hc => h.2 hc rfl⟩

/-- A behaviour whose every invocation raises. -/
def crashBeh : OrchBeh := fun _ ctx _ => ⟨ctx, .error "boom".data, []⟩

/-- A turn oracle all of whose LLM calls fail. -/
def trivialOracle : TurnOracle :=
  ⟨.error (), .error (), .error (), .error (), .error (),
    ⟨fun _ => .exn [], .error ()⟩, .error ()⟩

/-- Witness for C2: under an always-crashing behaviour the turn really
does crash, stays within the 20-invocation cap, and the trace carries an
`error` event. -/
theorem orchestrator_caps_witness :
    (orchestrator_run crashBeh (fun _ => trivialOracle) true "g".data []).crashed
        = true ∧
    (orchestrator_run crashBeh (fun _ => trivialOracle) true "g".data
        []).invocations ≤ 20 ∧
    .errorE ∈ (orchestrator_run crashBeh (fun _ => trivialOracle) true "g".data
        []).trace :=
  ⟨rfl,
   (orchestrator_caps crashBeh (fun _ => trivialOracle) "g".data []).1,
   (orchestrator_caps crashBeh (fun _ => trivialOracle) "g".data []).2 rfl⟩

/-! ### Counter bookkeeping for the turn invariant (claim C8) -/

theorem execIterate_cont_counters {o : ExecOracle} {ctx ctx' : AgentContext}
    {step : Step} {ev : List EvKind}
    (h : execIterate o ctx step = .cont ctx' ev) :
    (ctx'.retry_count = 0 ∨ ctx'.retry_count = ctx.retry_count) ∧
    ctx'.replan_count = ctx.replan_count ∧
    ctx'.max_retries = ctx.max_retries ∧
    ctx'.max_replans = ctx.max_replans := by
  simp only [execIterate, execFail] at h
  repeat' split at h
  all_goals cases h
  all_goals simp

theorem execIterate_handoff_counters {o : ExecOracle} {ctx ctx' : AgentContext}
    {step : Step} {next : AgentName} {ev : List EvKind}
    (h : execIterate o ctx step = .handoff ctx' next ev) :
    next = .RepairAgent ∧
    ctx'.retry_count = ctx.retry_count ∧
    ctx.retry_count < ctx.max_retries ∧
    ctx'.replan_count = ctx.replan_count ∧
    ctx'.max_retries = ctx.max_retries ∧
    ctx'.max_replans = ctx.max_replans := by
  simp only [execIterate, execFail] at h
  repeat' split at h
  all_goals cases h
  all_goals simp_all

/-- The loop-detection body of the `INCOMPLETE` branch of `evalDecide`,
abstracted over the extracted reason (the `evalDecide` body is
definitionally this after the reason is computed). -/
def evalDecideCore (ctx : AgentContext) (reason : List Char) :
    AgentContext × AgentName × List EvKind :=
  let ctx₁ :=
    if reason = ctx.last_failure_reason then
      { ctx with replan_count := ctx.replan_count + 1 }
    else
      { ctx with last_failure_reason := reason, replan_count := 0 }
  if ctx₁.replan_count < ctx₁.max_replans then
    ({ ctx₁ with
        steps := [],
        current_step_idx := 0,
        retry_count := 0,
        memory := ctx₁.memory ++
          [⟨.assistant, "上次执行未能完成目标：".data ++ reason⟩] },
      .PlannerAgent, [.log])
  else (ctx₁, .SummaryAgent, [.log])

theorem evalDecide_eq (ctx : AgentContext) (ev : List Char) :
    evalDecide ctx ev =
      if listStartsWith "COMPLETED".data ev then (ctx, .SummaryAgent, [])
      else if listStartsWith "INCOMPLETE".data ev then
        evalDecideCore ctx
          (match splitOnceSub ":".data ev with
            | some (_, after) => after
            | none => "目标未完成".data)
      else (ctx, .SummaryAgent, [.log]) := rfl

theorem evalDecideCore_counters (ctx : AgentContext) (reason : List Char) :
    (evalDecideCore ctx reason).1.max_retries = ctx.max_retries ∧
    (evalDecideCore ctx reason).1.max_replans = ctx.max_replans ∧
    ((evalDecideCore ctx reason).2.1 = .PlannerAgent ∨
      (evalDecideCore ctx reason).2.1 = .SummaryAgent) ∧
    (evalDecideCore ctx reason).1.replan_count ≤ ctx.replan_count + 1 ∧
    ((evalDecideCore ctx reason).1.retry_count = 0 ∨
      (evalDecideCore ctx reason).1.retry_count = ctx.retry_count) ∧
    ((evalDecideCore ctx reason).2.1 = .PlannerAgent →
      (evalDecideCore ctx reason).1.replan_count <
        (evalDecideCore ctx reason).1.max_replans) := by
  unfold evalDecideCore
  by_cases h₃ : reason = ctx.last_failure_reason <;>
    simp only [h₃, if_pos, if_neg, not_false_eq_true, reduceIte] <;>
    split <;>
    rename_i hcap <;>
    refine ⟨rfl, rfl, by simp, ?_, by simp, ?_⟩ <;>
    simp_all <;>
    omega

theorem evalDecide_counters (ctx : AgentContext) (ev : List Char) :
    (evalDecide ctx ev).1.max_retries = ctx.max_retries ∧
    (evalDecide ctx ev).1.max_replans = ctx.max_replans ∧
    ((evalDecide ctx ev).2.1 = .PlannerAgent ∨
      (evalDecide ctx ev).2.1 = .SummaryAgent) ∧
    (evalDecide ctx ev).1.replan_count ≤ ctx.replan_count + 1 ∧
    ((evalDecide ctx ev).1.retry_count = 0 ∨
      (evalDecide ctx ev).1.retry_count = ctx.retry_count) ∧
    ((evalDecide ctx ev).2.1 = .PlannerAgent →
      (evalDecide ctx ev).1.replan_count < (evalDecide ctx ev).1.max_replans) := by
  rw [evalDecide_eq]
  by_cases h₁ : listStartsWith "COMPLETED".data ev = true
  · rw [if_pos h₁]
    exact ⟨rfl, rfl, Or.inr rfl, Nat.le_succ _, Or.inr rfl, fun h => by simp at h⟩
  · rw [if_neg h₁]
    by_cases h₂ : listStartsWith "INCOMPLETE".data ev = true
    · rw [if_pos h₂]
      exact evalDecideCore_counters ctx _
    · rw [if_neg h₂]
      exact ⟨rfl, rfl, Or.inr rfl, Nat.le_succ _, Or.inr rfl, fun h => by simp at h⟩

/-- Post-condition of one `ExecutorAgent.run`: entering with the
orchestrator's caps, a retry count within bounds and a replan count
strictly below the cap, the counters stay within bounds, a Repair handoff
happens only with `retry_count` strictly below `max_retries`, and any
non-Summary handoff keeps `replan_count` strictly below `max_replans`. -/
theorem execGo_post (o : ExecOracle) (fuel : Nat) :
    ∀ ctx : AgentContext,
      ctx.max_retries = 3 → ctx.max_replans = 3 →
      ctx.retry_count ≤ 3 → ctx.replan_count < 3 →
      (execGo o fuel ctx).1.max_retries = 3 ∧
      (execGo o fuel ctx).1.max_replans = 3 ∧
      (execGo o fuel ctx).1.retry_count ≤ 3 ∧
      (execGo o fuel ctx).1.replan_count ≤ 3 ∧
      ((execGo o fuel ctx).2.1 = .RepairAgent →
        (execGo o fuel ctx).1.retry_count < 3) ∧
      ((execGo o fuel ctx).2.1 ≠ .SummaryAgent →
        (execGo o fuel ctx).1.replan_count < 3) := by
  induction fuel with
  | zero =>
    intro ctx hmr hmp hretry hreplan
    simp only [execGo]
    obtain ⟨e₁, e₂, e₃, e₄, e₅, e₆⟩ :=
      evalDecide_counters ctx (evaluate_goal_completion ctx.steps o.evalResp)
    refine ⟨by omega, by omega, by omega, by omega, ?_, ?_⟩
    · intro hrep
      rcases e₃ with h | h <;> simp [h] at hrep
    · intro hns
      rcases e₃ with h | h
      · have := e₆ h
        omega
      · exact absurd h hns
  | succ fuel ih =>
    intro ctx hmr hmp hretry hreplan
    simp only [execGo]
    split
    · rename_i hlt
      cases hit : execIterate o ctx
          (ctx.steps.get ⟨ctx.current_step_idx, hlt⟩) with
      | cont ctx' ev =>
        dsimp only
        obtain ⟨c₁, c₂, c₃, c₄⟩ := execIterate_cont_counters hit
        have := ih ctx' (by omega) (by omega) (by omega) (by omega)
        simpa using this
      | handoff ctx' next ev =>
        dsimp only
        obtain ⟨h₁, h₂, h₃, h₄, h₅, h₆⟩ := execIterate_handoff_counters hit
        subst h₁
        refine ⟨by omega, by omega, by omega, by omega, ?_, ?_⟩
        · intro _
          omega
        · intro _
          omega
    · obtain ⟨e₁, e₂, e₃, e₄, e₅, e₆⟩ :=
        evalDecide_counters ctx (evaluate_goal_completion ctx.steps o.evalResp)
      refine ⟨by omega, by omega, by omega, by omega, ?_, ?_⟩
      · intro hrep
        rcases e₃ with h | h <;> simp [h] at hrep
      · intro hns
        rcases e₃ with h | h
        · have := e₆ h
          omega
        · exact absurd h hns

theorem routerRun_counters (ctx : AgentContext) (resp : Except Unit (List Char)) :
    (routerRun ctx resp).1.retry_count = ctx.retry_count ∧
    (routerRun ctx resp).1.replan_count = ctx.replan_count ∧
    (routerRun ctx resp).1.max_retries = ctx.max_retries ∧
    (routerRun ctx resp).1.max_replans = ctx.max_replans ∧
    ((routerRun ctx resp).2.1 = some .ChatAgent ∨
      (routerRun ctx resp).2.1 = some .PlannerAgent) := by
  unfold routerRun
  cases resp with
  | error e => simp
  | ok r =>
    by_cases h : strContains (upperStr r) "CHAT".data = true <;> simp [h]

theorem chatRun_counters (ctx : AgentContext) (resp : Except Unit (List Char)) :
    (chatRun ctx resp).1.retry_count = ctx.retry_count ∧
    (chatRun ctx resp).1.replan_count = ctx.replan_count ∧
    (chatRun ctx resp).1.max_retries = ctx.max_retries ∧
    (chatRun ctx resp).1.max_replans = ctx.max_replans ∧
    (chatRun ctx resp).2.1 = none := by
  unfold chatRun
  cases resp <;> simp

theorem summaryRun_counters (ctx : AgentContext) (resp : Except Unit (List Char)) :
    (summaryRun ctx resp).1.retry_count = ctx.retry_count ∧
    (summaryRun ctx resp).1.replan_count = ctx.replan_count ∧
    (summaryRun ctx resp).1.max_retries = ctx.max_retries ∧
    (summaryRun ctx resp).1.max_replans = ctx.max_replans ∧
    (summaryRun ctx resp).2.1 = none := by
  unfold summaryRun
  cases resp <;> simp

theorem plannerRun_counters (ctx : AgentContext)
    (planResp introResp : Except Unit (List Char)) :
    (plannerRun ctx planResp introResp).1.retry_count = ctx.retry_count ∧
    (plannerRun ctx planResp introResp).1.replan_count = ctx.replan_count ∧
    (plannerRun ctx planResp introResp).1.max_retries = ctx.max_retries ∧
    (plannerRun ctx planResp introResp).1.max_replans = ctx.max_replans ∧
    ((plannerRun ctx planResp introResp).2.1 = none ∨
      (plannerRun ctx planResp introResp).2.1 = some .ExecutorAgent) := by
  unfold plannerRun
  cases planResp with
  | error e => simp
  | ok text =>
    by_cases h : plannerParse text = [] <;>
      simp [List.isEmpty_iff, h]

theorem repairRun_counters (ctx : AgentContext) (resp : Except Unit (List Char)) :
    (repairRun ctx resp).1.replan_count = ctx.replan_count ∧
    (repairRun ctx resp).1.max_retries = ctx.max_retries ∧
    (repairRun ctx resp).1.max_replans = ctx.max_replans ∧
    ((repairRun ctx resp).1.retry_count = 0 ∨
      (repairRun ctx resp).1.retry_count = ctx.retry_count ∨
      (repairRun ctx resp).1.retry_count = ctx.retry_count + 1) ∧
    ((repairRun ctx resp).2.1 = some .ExecutorAgent ∨
      (repairRun ctx resp).2.1 = some .SummaryAgent) := by
  unfold repairRun
  cases hstep : ctx.steps[ctx.current_step_idx]? with
  | none => simp
  | some st =>
    cases resp with
    | error e => simp
    | ok sugg =>
      by_cases h : repairParse sugg = [] <;>
        simp [List.isEmpty_iff, h]

/-- The strengthened turn invariant for claim C8. -/
def turnInv (cfg : Option AgentName × AgentContext) : Prop :=
  cfg.2.max_retries = 3 ∧ cfg.2.max_replans = 3 ∧
  cfg.2.retry_count ≤ 3 ∧ cfg.2.replan_count ≤ 3 ∧
  (cfg.1 = some .RepairAgent → cfg.2.retry_count < 3) ∧
  (∀ a, cfg.1 = some a → a ≠ .SummaryAgent → cfg.2.replan_count < 3)

theorem turnInv_step (o : TurnOracle) (cfg : Option AgentName × AgentContext)
    (h : turnInv cfg) : turnInv (orchStepReal o cfg) := by
  obtain ⟨curr, ctx⟩ := cfg
  obtain ⟨hmr, hmp, hretry, hreplan, hrep, hns⟩ := h
  dsimp only at hmr hmp hretry hreplan hrep hns
  cases curr with
  | none => exact ⟨hmr, hmp, hretry, hreplan, hrep, hns⟩
  | some name =>
    cases name with
    | RouterAgent =>
      obtain ⟨r₁, r₂, r₃, r₄, r₅⟩ := routerRun_counters ctx o.routerResp
      have hlt : ctx.replan_count < 3 := hns _ rfl (by simp)
      refine ⟨by simp only [orchStepReal, realAgents]; omega,
        by simp only [orchStepReal, realAgents]; omega,
        by simp only [orchStepReal, realAgents]; omega,
        by simp only [orchStepReal, realAgents]; omega, ?_, ?_⟩
      · intro habs
        simp only [orchStepReal, realAgents] at habs
        rcases r₅ with h | h <;> rw [h] at habs <;> simp at habs
      · intro a ha hne
        simp only [orchStepReal, realAgents]
        omega
    | ChatAgent =>
      obtain ⟨r₁, r₂, r₃, r₄, r₅⟩ := chatRun_counters ctx o.chatResp
      refine ⟨by simp only [orchStepReal, realAgents]; omega,
        by simp only [orchStepReal, realAgents]; omega,
        by simp only [orchStepReal, realAgents]; omega,
        by simp only [orchStepReal, realAgents]; omega, ?_, ?_⟩
      · intro habs
        simp only [orchStepReal, realAgents] at habs
        rw [r₅] at habs
        simp at habs
      · intro a ha hne
        simp only [orchStepReal, realAgents] at ha
        rw [r₅] at ha
        simp at ha
    | PlannerAgent =>
      obtain ⟨r₁, r₂, r₃, r₄, r₅⟩ :=
        plannerRun_counters ctx o.planResp o.introResp
      have hlt : ctx.replan_count < 3 := hns _ rfl (by simp)
      refine ⟨by simp only [orchStepReal, realAgents]; omega,
        by simp only [orchStepReal, realAgents]; omega,
        by simp only [orchStepReal, realAgents]; omega,
        by simp only [orchStepReal, realAgents]; omega, ?_, ?_⟩
      · intro habs
        simp only [orchStepReal, realAgents] at habs
        rcases r₅ with h | h <;> rw [h] at habs <;> simp at habs
      · intro a ha hne
        simp only [orchStepReal, realAgents]
        omega
    | ExecutorAgent =>
      have hlt : ctx.replan_count < 3 := hns _ rfl (by simp)
      obtain ⟨e₁, e₂, e₃, e₄, e₅, e₆⟩ :=
        execGo_post o.exec (ctx.steps.length - ctx.current_step_idx) ctx
          hmr hmp hretry hlt
      refine ⟨by simpa [orchStepReal, realAgents, executorRun] using e₁,
        by simpa [orchStepReal, realAgents, executorRun] using e₂,
        by simpa [orchStepReal, realAgents, executorRun] using e₃,
        by simpa [orchStepReal, realAgents, executorRun] using e₄, ?_, ?_⟩
      · intro habs
        simp only [orchStepReal, realAgents, executorRun] at habs ⊢
        simp only [Option.some_inj] at habs
        exact e₅ habs
      · intro a ha hne
        simp only [orchStepReal, realAgents, executorRun] at ha ⊢
        simp only [Option.some_inj] at ha
        exact e₆ (ha ▸ hne)
    | RepairAgent =>
      have hlt : ctx.retry_count < 3 := hrep rfl
      obtain ⟨r₁, r₂, r₃, r₄, r₅⟩ := repairRun_counters ctx o.repairResp
      refine ⟨by simp only [orchStepReal, realAgents]; omega,
        by simp only [orchStepReal, realAgents]; omega,
        by simp only [orchStepReal, realAgents]; omega,
        by simp only [orchStepReal, realAgents]; omega, ?_, ?_⟩
      · intro habs
        simp only [orchStepReal, realAgents] at habs
        rcases r₅ with h | h <;> rw [h] at habs <;> simp at habs
      · intro a ha hne
        simp only [orchStepReal, realAgents] at ha ⊢
        have hrp : ctx.replan_count < 3 := hns _ rfl (by simp)
        omega
    | SummaryAgent =>
      obtain ⟨r₁, r₂, r₃, r₄, r₅⟩ := summaryRun_counters ctx o.summaryResp
      refine ⟨by simp only [orchStepReal, realAgents]; omega,
        by simp only [orchStepReal, realAgents]; omega,
        by simp only [orchStepReal, realAgents]; omega,
        by simp only [orchStepReal, realAgents]; omega, ?_, ?_⟩
      · intro habs
        simp only [orchStepReal, realAgents] at habs
        rw [r₅] at habs
        simp at habs
      · intro a ha hne
        simp only [orchStepReal, realAgents] at ha
        rw [r₅] at ha
        simp at ha

/-- Claim C8 (confirmed): in every state reachable during a turn the
retry and replan counters respect their caps (`retry_count ≤ max_retries =
3`, `replan_count ≤ max_replans = 3`), and whenever the next agent to run
is Repair — the only place `retry_count` is incremented — the retry count
is still strictly below the cap. -/
theorem turn_counter_invariant (oracle : Nat → TurnOracle) (goal : List Char)
    (memory : List MemEntry) (n : Nat) :
    (reachCfg oracle goal memory n).2.retry_count ≤
      (reachCfg oracle goal memory n).2.max_retries ∧
    (reachCfg oracle goal memory n).2.replan_count ≤
      (reachCfg oracle goal memory n).2.max_replans ∧
    ((reachCfg oracle goal memory n).1 = some .RepairAgent →
      (reachCfg oracle goal memory n).2.retry_count <
        (reachCfg oracle goal memory n).2.max_retries) := by
  have hinv : ∀ m, turnInv (reachCfg oracle goal memory m) := by
    intro m
    induction m with
    | zero =>
      refine ⟨rfl, rfl, by simp [reachCfg, initCtx], by simp [reachCfg, initCtx],
        ?_, ?_⟩
      · intro habs
        simp [reachCfg] at habs
      · intro a ha hne
        simp [reachCfg, initCtx]
    | succ m ih => exact turnInv_step (oracle m) _ ih
  obtain ⟨hmr, hmp, hretry, hreplan, hrep, _⟩ := hinv n
  exact ⟨by omega, by omega, fun h => by have := hrep h; omega⟩

/-- A turn oracle that drives a turn into the Repair agent: the router
classifies a task, the planner produces one step, and its shell command
raises. -/
def repairOracle : TurnOracle where
  routerResp := .ok "TASK".data
  chatResp := .error ()
  planResp := .ok "t::boom".data
  introResp := .error ()
  summaryResp := .error ()
  exec := ⟨fun _ => .exn "err".data, .ok "INCOMPLETE:x".data⟩
  repairResp := .error ()

/-- Witness for C8: after three orchestrator steps of that turn the next
agent really is Repair, and the retry count is strictly below the cap. -/
theorem turn_counter_invariant_witness :
    (reachCfg (fun _ => repairOracle) "g".data [] 3).1 = some .RepairAgent ∧
    (reachCfg (fun _ => repairOracle) "g".data [] 3).2.retry_count <
      (reachCfg (fun _ => repairOracle) "g".data [] 3).2.max_retries :=
  ⟨by decide,
   (turn_counter_invariant (fun _ => repairOracle) "g".data [] 3).2.2
     (by decide)⟩

/-! ### Substring infrastructure for claim C6 -/

theorem listStartsWith_iff {pat s : List Char} :
    listStartsWith pat s = true ↔ ∃ t, s = pat ++ t := by
  induction pat generalizing s with
  | nil => simp [listStartsWith]
  | cons p ps ih =>
    cases s with
    | nil => simp [listStartsWith]
    | cons c cs =>
      simp only [listStartsWith, Bool.and_eq_true, decide_eq_true_eq, ih,
        List.cons_append, List.cons.injEq]
      constructor
      · rintro ⟨rfl, t, rfl⟩
        exact ⟨t, rfl, rfl⟩
      · rintro ⟨t, rfl, rfl⟩
        exact ⟨rfl, t, rfl⟩

theorem strContains_iff {s pat : List Char} :
    strContains s pat = true ↔ ∃ u v, s = u ++ pat ++ v := by
  induction s with
  | nil =>
    constructor
    · intro hc
      unfold strContains at hc
      by_cases h : listStartsWith pat [] = true
      · obtain ⟨t, ht⟩ := listStartsWith_iff.mp h
        have hpat : pat = [] := by
          cases pat with
          | nil => rfl
          | cons _ _ => simp at ht
        subst hpat
        exact ⟨[], [], rfl⟩
      · rw [if_neg h] at hc
        cases hc
    · rintro ⟨u, v, huv⟩
      have hlen := congrArg List.length huv
      simp only [List.length_nil, List.length_append] at hlen
      have hu : u = [] := List.eq_nil_of_length_eq_zero (by omega)
      have hp : pat = [] := List.eq_nil_of_length_eq_zero (by omega)
      subst hu; subst hp
      decide
    | cons c t ih =>
    constructor
    · intro hc
      unfold strContains at hc
      by_cases h : listStartsWith pat (c :: t) = true
      · obtain ⟨r, hr⟩ := listStartsWith_iff.mp h
        exact ⟨[], r, by simpa using hr⟩
      · rw [if_neg h] at hc
        have hc₂ : strContains t pat = true := hc
        obtain ⟨u, v, huv⟩ := ih.mp hc₂
        exact ⟨c :: u, v, by simp [huv]⟩
    · rintro ⟨u, v, huv⟩
      unfold strContains
      by_cases h : listStartsWith pat (c :: t) = true
      · rw [if_pos h]
      · rw [if_neg h]
        cases u with
        | nil =>
          exfalso
          apply h
          rw [listStartsWith_iff]
          exact ⟨v, by simpa using huv⟩
        | cons x xs =>
          simp only [List.cons_append, List.cons.injEq] at huv
          show strContains t pat = true
          exact ih.mpr ⟨xs, v, huv.2⟩

theorem listStartsWith_take {pat s : List Char}
    (h : listStartsWith pat s = true) : s.take pat.length = pat := by
  obtain ⟨t, rfl⟩ := listStartsWith_iff.mp h
  simp

theorem listStartsWith_of_take {pat s : List Char}
    (h : s.take pat.length = pat) : listStartsWith pat s = true := by
  rw [listStartsWith_iff]
  refine ⟨s.drop pat.length, ?_⟩
  conv_lhs => rw [← List.take_append_drop pat.length s]
  rw [h]

/-- `END_MARKER` has no non-trivial border: no proper prefix equals the
suffix of the same length. -/
theorem marker_border_free :
    ∀ k < END_MARKER.length, 0 < k →
      END_MARKER.take k ≠ END_MARKER.drop (END_MARKER.length - k) := by
  decide

theorem marker_ne_nil : END_MARKER ≠ [] := by decide

theorem marker_no_nl : '\n' ∉ END_MARKER := by decide

theorem marker_no_esc : '\x1b' ∉ END_MARKER := by decide

theorem strContains_of_infix {s₁ s₂ pat : List Char} (h : s₁ <:+: s₂)
    (hc : strContains s₁ pat = true) : strContains s₂ pat = true := by
  obtain ⟨u, v, huv⟩ := strContains_iff.mp hc
  obtain ⟨w, z, hwz⟩ := h
  exact strContains_iff.mpr ⟨w ++ u, v ++ z, by rw [← hwz, huv]; simp⟩

theorem strContains_cons_false {c : Char} {t pat : List Char}
    (h : strContains (c :: t) pat = false) :
    listStartsWith pat (c :: t) = false ∧ strContains t pat = false := by
  unfold strContains at h
  by_cases hs : listStartsWith pat (c :: t) = true
  · rw [if_pos hs] at h
    cases h
  · rw [if_neg hs] at h
    exact ⟨Bool.not_eq_true _ ▸ hs, h⟩

/-- A marker occurrence cannot start strictly inside `a` and reach into
the explicit marker that follows `a`: the border-freeness of the marker
and the marker-freeness of `a` exclude it. -/
theorem marker_no_junction {a : List Char} (t : List Char)
    (ha : strContains a END_MARKER = false) :
    ∀ y, y ≠ [] → y <:+ a →
      listStartsWith END_MARKER (y ++ END_MARKER ++ t) = false := by
  intro y hy hsuf
  by_contra hS
  rw [Bool.not_eq_false] at hS
  have htake := listStartsWith_take hS
  by_cases hlen : END_MARKER.length ≤ y.length
  · rw [List.append_assoc, List.take_append_of_le_length hlen] at htake
    have hyS : listStartsWith END_MARKER y = true := listStartsWith_of_take htake
    obtain ⟨r, hr⟩ := listStartsWith_iff.mp hyS
    obtain ⟨w, hw⟩ := hsuf
    have : strContains a END_MARKER = true :=
      strContains_iff.mpr ⟨w, r, by rw [← hw, hr, List.append_assoc]⟩
    rw [this] at ha
    cases ha
  · push_neg at hlen
    have hy₀ : 0 < y.length := List.length_pos.mpr hy
    rw [List.append_assoc, List.take_append_eq_append_take,
      List.take_of_length_le (by omega),
      List.take_append_of_le_length (by omega)] at htake
    have hdrop : END_MARKER.drop y.length =
        END_MARKER.take (END_MARKER.length - y.length) := by
      conv_lhs => rw [← htake]
      rw [List.drop_left]
    have hidx : END_MARKER.length - (END_MARKER.length - y.length) = y.length := by
      omega
    exact marker_border_free (END_MARKER.length - y.length) (by omega) (by omega)
      (by rw [hidx]; exact hdrop.symm)

/-- Skipping exactly the remaining characters of a matched occurrence. -/
theorem removeAllAux_skip (pat : List Char) :
    ∀ (u v : List Char), removeAllAux pat u.length (u ++ v) =
      removeAllAux pat 0 v := by
  intro u
  induction u with
  | nil => intro v; rfl
  | cons c u' ih =>
    intro v
    simpa [removeAllAux] using ih v

/-- The scan of `str.replace` over `a ++ MARKER ++ t` when no occurrence
starts inside `a`: the characters of `a` are emitted, the explicit marker
is deleted, and scanning continues on `t`. -/
theorem removeAllAux_marker_split :
    ∀ (a t : List Char),
      (∀ y, y ≠ [] → y <:+ a →
        listStartsWith END_MARKER (y ++ END_MARKER ++ t) = false) →
      removeAllAux END_MARKER 0 (a ++ END_MARKER ++ t) =
        a ++ removeAllAux END_MARKER 0 t := by
  intro a
  induction a with
  | nil =>
    intro t _
    simp only [List.nil_append]
    cases hM : END_MARKER with
    | nil => exact absurd hM marker_ne_nil
    | cons m M' =>
      rw [List.cons_append]
      show removeAllAux (m :: M') 0 (m :: (M' ++ t)) = removeAllAux (m :: M') 0 t
      have hsw : listStartsWith (m :: M') (m :: (M' ++ t)) = true := by
        have := listStartsWith_append_self (m :: M') t
        simpa using this
      rw [removeAllAux, if_pos hsw]
      have : (m :: M').length - 1 = M'.length := by simp
      rw [this]
      exact removeAllAux_skip (m :: M') M' t
  | cons c a' ih =>
    intro t hjun
    have hfalse : listStartsWith END_MARKER ((c :: a') ++ END_MARKER ++ t) = false :=
      hjun (c :: a') (by simp) List.suffix_rfl
    rw [List.cons_append, List.cons_append]
    rw [List.cons_append, List.cons_append] at hfalse
    rw [removeAllAux, if_neg (by rw [hfalse]; exact Bool.false_ne_true)]
    rw [ih t (fun y hy hsuf => hjun y hy (hsuf.trans (List.suffix_cons c a')))]
    simp

/-- `str.replace` is the identity on marker-free text. -/
theorem removeAllAux_of_free :
    ∀ (a : List Char), strContains a END_MARKER = false →
      removeAllAux END_MARKER 0 a = a := by
  intro a
  induction a with
  | nil => intro _; rfl
  | cons c a' ih =>
    intro ha
    obtain ⟨h₁, h₂⟩ := strContains_cons_false ha
    rw [removeAllAux, if_neg (by rw [h₁]; exact Bool.false_ne_true)]
    rw [ih h₂]

/-- A list of chunks joined by explicit markers (the shape of a PTY
capture that contains the marker literal between marker-free chunks). -/
def markerJoin : List (List Char) → List Char
  | [] => []
  | [p] => p
  | p :: q :: rest => p ++ END_MARKER ++ markerJoin (q :: rest)

/-- `str.replace(MARKER, '')` on marker-free chunks joined by markers
deletes exactly the markers. -/
theorem removeAllAux_markerJoin :
    ∀ parts : List (List Char),
      (∀ p ∈ parts, strContains p END_MARKER = false) →
      removeAllAux END_MARKER 0 (markerJoin parts) = parts.flatten := by
  intro parts
  induction parts with
  | nil => intro _; rfl
  | cons p rest ih =>
    intro h
    cases rest with
    | nil =>
      simp only [markerJoin, List.flatten]
      rw [removeAllAux_of_free p (h p (by simp))]
      simp
    | cons q rest' =>
      simp only [markerJoin, List.flatten]
      rw [removeAllAux_marker_split p (markerJoin (q :: rest'))
        (marker_no_junction _ (h p (by simp)))]
      rw [ih (fun x hx => h x (by simp [hx]))]
      simp


/-- `str.replace(END_MARKER, ...)` never takes the empty-pattern branch. -/
theorem removeAllSub_marker (s : List Char) :
    removeAllSub END_MARKER s = removeAllAux END_MARKER 0 s := by
  simp only [removeAllSub]
  rw [if_neg (by decide)]

/-- The `_ansi_escape` substitution is the identity on ESC-free text. -/
theorem ansiShellGo_no_esc :
    ∀ (fuel : Nat) (s : List Char), '\x1b' ∉ s → ansiShellGo fuel s = s := by
  intro fuel
  induction fuel with
  | zero => intro s _; rfl
  | succ n ih =>
    intro s h
    cases s with
    | nil => rfl
    | cons c t =>
      have hc : ¬ c = '\x1b' := fun hcc => h (by simp [hcc])
      have ht : '\x1b' ∉ t := fun hm => h (by simp [hm])
      show ansiShellGo (n + 1) (c :: t) = c :: t
      simp only [ansiShellGo]
      rw [if_neg hc, ih t ht]

theorem ansiShellStrip_no_esc {s : List Char} (h : '\x1b' ∉ s) :
    ansiShellStrip s = s :=
  ansiShellGo_no_esc s.length s h

/-- Every line kept by the echo filter was one of the input lines. -/
theorem mem_keepCleanLines {cmd l : List Char} :
    ∀ (i : Nat) (lines : List (List Char)),
      l ∈ keepCleanLines cmd i lines → l ∈ lines := by
  intro i lines
  induction lines generalizing i with
  | nil => intro h; exact absurd h (by simp [keepCleanLines])
  | cons x rest ih =>
    intro h
    rw [keepCleanLines] at h
    split at h
    · exact List.mem_cons_of_mem x (ih (i + 1) h)
    · split at h
      · exact List.mem_cons_of_mem x (ih (i + 1) h)
      · rcases List.mem_cons.mp h with h | h
        · simp [h]
        · exact List.mem_cons_of_mem x (ih (i + 1) h)

/-- Every line produced by `splitlines` is an infix of the input. -/
theorem splitLinesPy_within :
    ∀ (cur s l : List Char), l ∈ splitLinesPy cur s → l <:+: (cur.reverse ++ s) := by
  intro cur s
  induction cur, s using splitLinesPy.induct with
  | case1 cur hc =>
    intro l h
    simp only [splitLinesPy] at h
    rw [if_pos hc] at h
    exact absurd h (by simp)
  | case2 cur hc =>
    intro l h
    simp only [splitLinesPy] at h
    rw [if_neg hc] at h
    rcases List.mem_singleton.mp h with rfl
    simp
  | case3 cur rest ih =>
    intro l h
    have hstep : splitLinesPy cur ('\x0d' :: '\n' :: rest) =
        cur.reverse :: splitLinesPy [] rest := by
      rw [splitLinesPy.eq_def]
      simp
    rw [hstep] at h
    rcases List.mem_cons.mp h with rfl | h
    · exact (List.prefix_append _ _).isInfix
    · have h₁ : l <:+: rest := by simpa using ih l h
      exact h₁.trans ⟨cur.reverse ++ ['\x0d', '\n'], [], by simp⟩
  | case4 cur rest hne ih =>
    intro l h
    have hstep : splitLinesPy cur ('\x0d' :: rest) =
        cur.reverse :: splitLinesPy [] rest := by
      cases rest with
      | nil =>
        rw [splitLinesPy.eq_def]
        simp
      | cons c₂ rest₂ =>
        have hc₂ : ¬ c₂ = '\n' := fun hcc => hne rest₂ (by rw [hcc])
        rw [splitLinesPy.eq_def]
        simp [hc₂]
    rw [hstep] at h
    rcases List.mem_cons.mp h with rfl | h
    · exact (List.prefix_append _ _).isInfix
    · have h₁ : l <:+: rest := by simpa using ih l h
      exact h₁.trans ⟨cur.reverse ++ ['\x0d'], [], by simp⟩
  | case5 cur rest ih =>
    intro l h
    have hstep : splitLinesPy cur ('\n' :: rest) =
        cur.reverse :: splitLinesPy [] rest := by
      rw [splitLinesPy.eq_def]
      simp
    rw [hstep] at h
    rcases List.mem_cons.mp h with rfl | h
    · exact (List.prefix_append _ _).isInfix
    · have h₁ : l <:+: rest := by simpa using ih l h
      exact h₁.trans ⟨cur.reverse ++ ['\n'], [], by simp⟩
  | case6 cur c rest h1 h2 h3 ih =>
    intro l h
    have hstep : splitLinesPy cur (c :: rest) = splitLinesPy (c :: cur) rest := by
      rw [splitLinesPy.eq_def]
      simp [h2, h3]
    rw [hstep] at h
    have h₁ := ih l h
    simpa [List.append_assoc] using h₁

theorem pySplitlines_within {s l : List Char} (h : l ∈ pySplitlines s) :
    l <:+: s := by
  cases s with
  | nil => simp [pySplitlines] at h
  | cons c t =>
    have h₁ := splitLinesPy_within [] (c :: t) l h
    simpa using h₁

/-- Splitting at a separator character that does not occur in the pattern:
any occurrence of the pattern lies entirely on one side. -/
theorem strContains_sep_split {sep : Char} {pat : List Char}
    (hsep : sep ∉ pat) (A B : List Char)
    (h : strContains (A ++ sep :: B) pat = true) :
    strContains A pat = true ∨ strContains B pat = true := by
  obtain ⟨u, v, huv⟩ := strContains_iff.mp h
  by_cases h1 : u.length + pat.length ≤ A.length
  · left
    apply strContains_iff.mpr
    refine ⟨A.take u.length, A.drop (u.length + pat.length), ?_⟩
    have hA : (A ++ sep :: B).take A.length = A := List.take_left A (sep :: B)
    have htake : (A ++ sep :: B).take (u.length + pat.length) = u ++ pat := by
      rw [huv]
      have := List.take_left (u ++ pat) v
      simpa using this
    have hAt : A.take (u.length + pat.length) = u ++ pat := by
      rw [← hA, List.take_take, min_eq_left h1, htake]
    have hu : A.take u.length = u := by
      have h₂ := congrArg (List.take u.length) hAt
      rw [List.take_take, min_eq_left (by omega)] at h₂
      rw [h₂, List.take_append_eq_append_take, List.take_of_length_le (le_refl _),
        Nat.sub_self]
      simp
    calc A = A.take (u.length + pat.length) ++ A.drop (u.length + pat.length) :=
            (List.take_append_drop _ A).symm
      _ = (u ++ pat) ++ A.drop (u.length + pat.length) := by rw [hAt]
      _ = A.take u.length ++ pat ++ A.drop (u.length + pat.length) := by
            rw [hu, List.append_assoc]
  · by_cases h2 : A.length < u.length
    · right
      apply strContains_iff.mpr
      refine ⟨u.drop (A.length + 1), v, ?_⟩
      have hB : (A ++ sep :: B).drop (A.length + 1) = B := by
        rw [List.drop_append_eq_append_drop,
          List.drop_eq_nil_of_le (by omega)]
        simp
      have hB₂ : (A ++ sep :: B).drop (A.length + 1) =
          u.drop (A.length + 1) ++ pat ++ v := by
        rw [huv, List.append_assoc, List.drop_append_eq_append_drop,
          Nat.sub_eq_zero_of_le (by omega), List.drop_zero, List.append_assoc]
      rw [← hB, hB₂]
    · exfalso
      have hu : u.length ≤ A.length := by omega
      have hdrop : (A ++ sep :: B).drop u.length = pat ++ v := by
        rw [huv, List.append_assoc]
        exact List.drop_left u (pat ++ v)
      have hdrop₂ : (A ++ sep :: B).drop u.length =
          A.drop u.length ++ sep :: B := by
        rw [List.drop_append_eq_append_drop, Nat.sub_eq_zero_of_le hu,
          List.drop_zero]
      have heq : pat ++ v = A.drop u.length ++ sep :: B := by
        rw [← hdrop, hdrop₂]
      have hlen : (A.drop u.length).length < pat.length := by
        simp only [List.length_drop]
        omega
      have hpat : pat = A.drop u.length ++
          (sep :: B).take (pat.length - (A.drop u.length).length) := by
        have h₃ := congrArg (List.take pat.length) heq
        rw [List.take_append_eq_append_take, List.take_of_length_le (le_refl _),
          Nat.sub_self, List.take_zero, List.append_nil] at h₃
        rw [List.take_append_eq_append_take,
          List.take_of_length_le (le_of_lt hlen)] at h₃
        exact h₃
      have hk : 0 < pat.length - (A.drop u.length).length := by omega
      apply hsep
      rw [hpat]
      apply List.mem_append_right
      cases hk₂ : pat.length - (A.drop u.length).length with
      | zero => omega
      | succ k => simp [List.take_succ_cons]

/-- Joining marker-free lines with newlines stays marker-free (the marker
contains no newline, so no occurrence can straddle a join point). -/
theorem joinNL_marker_free :
    ∀ ls : List (List Char), (∀ l ∈ ls, strContains l END_MARKER = false) →
      strContains (joinNL ls) END_MARKER = false := by
  intro ls
  induction ls with
  | nil => intro _; decide
  | cons l ls ih =>
    intro h
    cases ls with
    | nil => exact h l (by simp)
    | cons m rest =>
      have hrec := ih (fun x hx => h x (by simp [hx]))
      have hl := h l (by simp)
      show strContains (l ++ '\n' :: joinNL (m :: rest)) END_MARKER = false
      cases hb : strContains (l ++ '\n' :: joinNL (m :: rest)) END_MARKER with
      | false => rfl
      | true =>
        rcases strContains_sep_split marker_no_nl l (joinNL (m :: rest)) hb with hc | hc
        · rw [hl] at hc
          cases hc
        · rw [hrec] at hc
          cases hc

/-- A character of a newline-join is a newline or comes from some line. -/
theorem mem_joinNL {c : Char} :
    ∀ ls : List (List Char), c ∈ joinNL ls → c = '\n' ∨ ∃ l ∈ ls, c ∈ l := by
  intro ls
  induction ls with
  | nil => intro h; exact absurd h (by simp [joinNL])
  | cons l ls ih =>
    intro h
    cases ls with
    | nil => exact Or.inr ⟨l, by simp, h⟩
    | cons m rest =>
      have h₂ : c ∈ l ++ '\n' :: joinNL (m :: rest) := h
      rcases List.mem_append.mp h₂ with hc | hc
      · exact Or.inr ⟨l, by simp, hc⟩
      · rcases List.mem_cons.mp hc with hc | hc
        · exact Or.inl hc
        · rcases ih hc with hnl | ⟨x, hx, hcx⟩
          · exact Or.inl hnl
          · exact Or.inr ⟨x, by simp [hx], hcx⟩

/-- `str.strip()` returns an infix of its argument. -/
theorem pyStrip_within (s : List Char) : pyStrip s <:+: s := by
  have h1 : dropLeftWhile isPyWS s <:+ s := List.dropWhile_suffix isPyWS
  have h2 : dropRightWhile isPyWS (dropLeftWhile isPyWS s) <+:
      dropLeftWhile isPyWS s := by
    have h3 : (dropLeftWhile isPyWS s).reverse.dropWhile isPyWS <:+
        (dropLeftWhile isPyWS s).reverse := List.dropWhile_suffix isPyWS
    have h4 := List.reverse_prefix.mpr h3
    simpa [dropRightWhile] using h4
  exact h2.isInfix.trans h1.isInfix

/-- ESC-free chunks joined by the (ESC-free) marker give ESC-free text. -/
theorem markerJoin_no_esc :
    ∀ parts : List (List Char), (∀ p ∈ parts, '\x1b' ∉ p) →
      '\x1b' ∉ markerJoin parts := by
  intro parts
  induction parts with
  | nil => intro _; simp [markerJoin]
  | cons p rest ih =>
    intro h
    cases rest with
    | nil => exact h p (by simp)
    | cons q rest₂ =>
      intro hmem
      have hm : '\x1b' ∈ p ++ END_MARKER ++ markerJoin (q :: rest₂) := hmem
      rcases List.mem_append.mp hm with hm | hm
      · rcases List.mem_append.mp hm with hm | hm
        · exact h p (by simp) hm
        · exact marker_no_esc hm
      · exact ih (fun x hx => h x (by simp [hx])) hm

/-- A capture in which the marker literal occurs twice: deleting every
occurrence of the marker glues the two fragments around the first
occurrence into a fresh occurrence, which survives `_clean_output`. -/
theorem marker_strip_counterexample :
    shell_clean_output ("<<::CMD_DONE_7f3e9a::".data ++ END_MARKER ++ ">>".data)
        "ls".data = END_MARKER ∧
      strContains
        (shell_clean_output ("<<::CMD_DONE_7f3e9a::".data ++ END_MARKER ++ ">>".data)
          "ls".data) END_MARKER = true := by
  constructor
  · decide
  · decide

/-- C6 (amended): for a capture consisting of arbitrary marker-free,
escape-free chunks separated by occurrences of the end-marker literal —
provided deleting the markers does not juxtapose the chunks into a fresh
occurrence — `_clean_output` returns text with no ESC byte (hence no ANSI
CSI or OSC sequence) and no occurrence of the end marker: every marker
occurrence is deleted, not just the trailing one.  Unrestricted, the
claim fails: deletion can regenerate the marker
(`marker_strip_counterexample`). -/
theorem marker_strip_amended (parts : List (List Char)) (cmd : List Char)
    (hfree : ∀ p ∈ parts, strContains p END_MARKER = false)
    (hesc : ∀ p ∈ parts, '\x1b' ∉ p)
    (hjoin : strContains parts.flatten END_MARKER = false) :
    strContains (shell_clean_output (markerJoin parts) cmd) END_MARKER = false ∧
      '\x1b' ∉ shell_clean_output (markerJoin parts) cmd := by
  have hesc₀ : '\x1b' ∉ markerJoin parts := markerJoin_no_esc parts hesc
  have h₁ : ansiShellStrip (markerJoin parts) = markerJoin parts :=
    ansiShellStrip_no_esc hesc₀
  have h₂ : removeAllSub END_MARKER (ansiShellStrip (markerJoin parts)) =
      parts.flatten := by
    rw [h₁, removeAllSub_marker, removeAllAux_markerJoin parts hfree]
  have hline_free : ∀ l ∈ keepCleanLines cmd 0 (pySplitlines parts.flatten),
      strContains l END_MARKER = false := by
    intro l hl
    have hl₂ : l ∈ pySplitlines parts.flatten := mem_keepCleanLines 0 _ hl
    have hinf : l <:+: parts.flatten := pySplitlines_within hl₂
    cases hb : strContains l END_MARKER with
    | false => rfl
    | true =>
      have := strContains_of_infix hinf hb
      rw [hjoin] at this
      cases this
  have hjoined_free :
      strContains (joinNL (keepCleanLines cmd 0 (pySplitlines parts.flatten)))
        END_MARKER = false :=
    joinNL_marker_free _ hline_free
  have hshape : shell_clean_output (markerJoin parts) cmd =
      pyStrip (joinNL (keepCleanLines cmd 0 (pySplitlines parts.flatten))) := by
    simp only [shell_clean_output]
    rw [h₂]
  constructor
  · rw [hshape]
    cases hb : strContains
        (pyStrip (joinNL (keepCleanLines cmd 0 (pySplitlines parts.flatten))))
        END_MARKER with
    | false => rfl
    | true =>
      have := strContains_of_infix (pyStrip_within _) hb
      rw [hjoined_free] at this
      cases this
  · rw [hshape]
    intro hmem
    have h₃ : '\x1b' ∈ joinNL (keepCleanLines cmd 0 (pySplitlines parts.flatten)) :=
      mem_of_mem_pyStrip hmem
    rcases mem_joinNL _ h₃ with hnl | ⟨l, hl, hcl⟩
    · exact absurd hnl (by decide)
    · have hl₂ : l ∈ pySplitlines parts.flatten := mem_keepCleanLines 0 _ hl
      have hinf : l <:+: parts.flatten := pySplitlines_within hl₂
      have hflat : '\x1b' ∈ parts.flatten := hinf.subset hcl
      rcases List.mem_flatten.mp hflat with ⟨p, hp, hcp⟩
      exact hesc p hp hcp

/-- Witness for the amended C6 theorem: a concrete two-chunk capture. -/
theorem marker_strip_amended_witness :
    ((∀ p ∈ [('h' :: "ello\nworld".data), "done".data],
        strContains p END_MARKER = false) ∧
      (∀ p ∈ [('h' :: "ello\nworld".data), "done".data], '\x1b' ∉ p) ∧
      strContains ([('h' :: "ello\nworld".data), "done".data]).flatten
        END_MARKER = false) ∧
    strContains
        (shell_clean_output
          (markerJoin [('h' :: "ello\nworld".data), "done".data]) "ls".data)
        END_MARKER = false ∧
      '\x1b' ∉ shell_clean_output
        (markerJoin [('h' :: "ello\nworld".data), "done".data]) "ls".data :=
  ⟨⟨by decide, by decide, by decide⟩,
    marker_strip_amended [('h' :: "ello\nworld".data), "done".data] "ls".data
      (by decide) (by decide) (by decide)⟩

end Lumo
